import Mathlib

/-!
Verification of the voting-event delegate lifecycle of the mikdashboard
dashboard application (src/dashboard/app/services.py and main.py),
as a shallow embedding in Lean 4.

Python datetimes are modelled as a wall-clock value in seconds together
with an optional fixed UTC offset (`none` = timezone-naive).  The IANA
zone `Europe/Budapest` (DELEGATE_TIMEZONE) is modelled abstractly as a
function from wall-clock seconds to the offset the zone assigns at that
wall time, which is how `datetime.replace(tzinfo=ZoneInfo(...))` resolves
an offset.
-/

namespace Mikdash

/-- A Python `datetime`: wall-clock seconds plus optional UTC offset
(seconds east of UTC); `tz = none` means timezone-naive. -/
structure DT where
  wall : Int
  tz : Option Int
  deriving Repr, DecidableEq

/-- A timezone (like `ZoneInfo("Europe/Budapest")`), abstracted as the UTC
offset it assigns to a given naive wall-clock time. -/
def Zone := Int → Int

/-- The absolute instant of an aware datetime (`wall - offset`), or of a
naive datetime read as UTC. -/
def DT.instant (d : DT) : Int :=
  match d.tz with
  | none => d.wall
  | some off => d.wall - off

/-- `services.VotingEvent` (the columns the delegate lifecycle reads). -/
structure EventRec where
  id : Nat
  title : String
  description : Option String
  event_date : Option DT
  delegate_deadline : Option DT
  is_active : Bool
  is_voting_enabled : Bool
  delegate_limit : Option Nat
  delegate_lock_override : Option String
  deriving Repr, DecidableEq

/-- `services.DelegateLockState`. -/
structure DelegateLockState where
  locked : Bool
  mode : String
  reason : String
  message : String
  deriving Repr, DecidableEq

/-- Python `str.lower()` (ASCII case mapping), written over the character
list so that it evaluates by kernel reduction. -/
def pyLower (s : String) : String :=
  String.mk (s.data.map Char.toLower)

/-- Python `str.upper()` (ASCII case mapping). -/
def pyUpper (s : String) : String :=
  String.mk (s.data.map Char.toUpper)

/-- Python `str.strip()`: drop whitespace from both ends. -/
def pyStrip (s : String) : String :=
  String.mk (((s.data.dropWhile Char.isWhitespace).reverse.dropWhile
    Char.isWhitespace).reverse)

/-- `(event.delegate_lock_override or "").strip().lower() or None`. -/
def parseOverride (o : Option String) : Option String :=
  let s := pyLower (pyStrip (o.getD ""))
  if s = "" then none else some s

/-- `services.delegate_lock_state`.  `current_time` is the caller-supplied
`current_time` (the source defaults it to `datetime.utcnow()`, a naive
datetime); `zone` models `DELEGATE_TIMEZONE`.  Aware datetimes compare by
absolute instant in Python, so the `astimezone` conversions preserve the
compared value and only the naive-deadline branch needs the zone. -/
def delegate_lock_state (zone : Zone) (event : EventRec) (current_time : DT) :
    DelegateLockState :=
  let current_reference : Int := current_time.instant
  let override := parseOverride event.delegate_lock_override
  if override = some "locked" then
    { locked := true, mode := "locked", reason := "manual_locked"
      message := "A delegáltak módosítása adminisztrátori döntés alapján zárolva." }
  else
    let deadline_passed : Bool :=
      match event.delegate_deadline with
      | none => false
      | some d =>
        match d.tz with
        | none => decide (d.wall - zone d.wall < current_reference)
        | some off => decide (d.wall - off < current_reference)
    if override = some "unlocked" then
      if deadline_passed then
        { locked := false, mode := "unlocked", reason := "manual_unlocked_after_deadline"
          message := "A delegált kijelölési határidő lejárt, de az adminisztrátor feloldotta a zárolást." }
      else
        { locked := false, mode := "unlocked", reason := "manual_unlocked"
          message := "A delegáltak módosítása adminisztrátori döntés alapján engedélyezett." }
    else if event.delegate_deadline = none then
      { locked := false, mode := "auto", reason := "no_deadline"
        message := "A delegáltak módosítása engedélyezett." }
    else if deadline_passed then
      { locked := true, mode := "auto", reason := "deadline_passed"
        message := "A delegált kijelölési határidő lejárt, ezért a módosítás zárolva." }
    else
      { locked := false, mode := "auto", reason := "deadline_pending"
        message := "A delegáltak módosítása engedélyezett a határidőig." }

/-- Spec-side deadline comparison (from the spec's words): a naive stored
deadline is interpreted in the configured local zone and compared against
now converted to that zone; an aware deadline is compared in UTC. -/
def deadlinePassedSpec (zone : Zone) (deadline : Option DT) (now : DT) : Bool :=
  match deadline with
  | none => false
  | some d =>
    match d.tz with
    | none => decide (d.wall - zone d.wall < now.instant)
    | some off => decide (d.wall - off < now.instant)

/-- Spec-side lock-state table (from the spec's six-row table): locked
flag and reason as a pure function of the parsed override and whether the
deadline has passed. -/
def lockStateSpec (zone : Zone) (event : EventRec) (now : DT) : Bool × String :=
  let ov := parseOverride event.delegate_lock_override
  if ov = some "locked" then (true, "manual_locked")
  else if ov = some "unlocked" then
    if deadlinePassedSpec zone event.delegate_deadline now then
      (false, "manual_unlocked_after_deadline")
    else
      (false, "manual_unlocked")
  else if event.delegate_deadline = none then (false, "no_deadline")
  else if deadlinePassedSpec zone event.delegate_deadline now then
    (true, "deadline_passed")
  else
    (false, "deadline_pending")

/-- `models.ApprovalDecision`. -/
inductive ApprovalDecision where
  | pending
  | approved
  | denied
  deriving Repr, DecidableEq

/-- `models.Organization` (the columns the voting lifecycle reads). -/
structure OrgRec where
  id : Nat
  fee_paid : Bool
  deriving Repr, DecidableEq

/-- `models.User` (the columns the voting lifecycle reads).
`organization_id = none` models both the NULL column and the absent
`user.organization` relationship. -/
structure UserRec where
  id : Nat
  organization_id : Option Nat
  is_email_verified : Bool
  is_admin : Bool
  admin_decision : ApprovalDecision
  is_voting_delegate : Bool
  deriving Repr, DecidableEq

/-- `models.EventDelegate`: join row (event, organization, user) with a
surrogate primary key `id`. -/
structure DelegateRow where
  id : Nat
  event_id : Nat
  organization_id : Nat
  user_id : Nat
  deriving Repr, DecidableEq

/-- Modelled from the spec: the `VotingAccessCode` model class is imported
by services.py from `.models` but absent from the models.py under src/;
§3 gives its columns as (event, code, used_at, used_by_user), matching
every field access in services.py. -/
structure CodeRow where
  id : Nat
  event_id : Nat
  code : String
  used_at : Option Int
  used_by_user_id : Option Nat
  deriving Repr, DecidableEq

/-- The relational store: one list per table, plus surrogate-key counters
(autoincrement primary keys). -/
structure Store where
  events : List EventRec
  orgs : List OrgRec
  users : List UserRec
  delegates : List DelegateRow
  codes : List CodeRow
  nextEventId : Nat
  nextDelegateId : Nat
  nextCodeId : Nat
  deriving Repr, DecidableEq

/-- The raise sites of `services.RegistrationError` that the voting
lifecycle reaches, one constructor per distinct message. -/
inductive RegErr where
  | eventNotFound
  | orgNotFound
  | userNotFound
  | titleTooShort
  | deadlineAfterDate
  | limitTooSmall
  | votingEnableInactive
  | activeEventDelete
  | rosterLocked
  | limitExceeded
  | userNoOrganization
  | userNotEligible
  | userWrongOrganization
  deriving Repr, DecidableEq

/-- `session.get(VotingEvent, event_id)` (primary-key lookup). -/
def get_event (s : Store) (event_id : Nat) : Option EventRec :=
  s.events.find? (fun e => e.id == event_id)

/-- `services.get_active_voting_event` (first event with `is_active`). -/
def get_active_voting_event (s : Store) : Option EventRec :=
  s.events.find? (·.is_active)

/-- The set of user ids holding an `EventDelegate` row on the given event
(the `active_delegate_ids` computation of `synchronize_delegate_flags`:
the event is refreshed by primary key, rows with a falsy `user_id` are
skipped). -/
def activeDelegateIds (s : Store) (active_event : Option Nat) : List Nat :=
  match active_event with
  | none => []
  | some eid =>
    match get_event s eid with
    | none => []
    | some _ =>
      (s.delegates.filter (fun d => d.event_id == eid)).filterMap
        (fun d => if d.user_id ≠ 0 then some d.user_id else none)

/-- `services.synchronize_delegate_flags`: every non-admin user's
`is_voting_delegate` flag is recomputed to membership in the active
event's delegate roster. -/
def synchronize_delegate_flags (s : Store) (active_event : Option Nat) : Store :=
  let ids := activeDelegateIds s active_event
  { s with users := s.users.map (fun u =>
      if u.is_admin then u else { u with is_voting_delegate := ids.contains u.id }) }

/-- The loop body of `set_active_voting_event`: `item.is_active` becomes
`item.id == event.id`, and an event that is not the target and has
`is_voting_enabled` set gets it force-cleared. -/
def actMap (event_id : Nat) (item : EventRec) : EventRec :=
  let item := { item with is_active := item.id == event_id }
  if item.id ≠ event_id ∧ item.is_voting_enabled then
    { item with is_voting_enabled := false }
  else item

/-- `services.set_active_voting_event`: every event's `is_active` becomes
`id == event_id`, events losing active status get `is_voting_enabled`
force-cleared, then delegate flags are resynchronized. -/
def set_active_voting_event (s : Store) (event_id : Nat) : Except RegErr Store :=
  match get_event s event_id with
  | none => .error .eventNotFound
  | some _ =>
    .ok (synchronize_delegate_flags
      { s with events := s.events.map (actMap event_id) } (some event_id))

/-- `services.set_voting_event_accessibility`: enabling voting on a
non-active event is rejected. -/
def set_voting_event_accessibility (s : Store) (event_id : Nat)
    (is_voting_enabled : Bool) : Except RegErr Store :=
  match get_event s event_id with
  | none => .error .eventNotFound
  | some event =>
    if is_voting_enabled ∧ ¬event.is_active then
      .error .votingEnableInactive
    else
      .ok { s with events := s.events.map (fun e =>
        if e.id == event_id then { e with is_voting_enabled := is_voting_enabled } else e) }

/-- `services.sanitize_optional_text`. -/
def sanitize_optional_text (value : Option String) : Option String :=
  match value with
  | none => none
  | some v => let stripped := pyStrip v; if stripped = "" then none else some stripped

/-- `services._normalize_datetime`: naive datetimes pass through, aware
ones are converted to UTC and stripped of their offset. -/
def normalize_datetime (value : DT) : DT :=
  match value.tz with
  | none => value
  | some off => { wall := value.wall - off, tz := none }

/-- `services.create_voting_event`: validates title/deadline/limit, adds
the event inactive, then activates it when requested or when no event is
active, enabling voting immediately only when `activate` was explicit. -/
def create_voting_event (s : Store) (title : String) (description : Option String)
    (event_date : DT) (delegate_deadline : DT) (delegate_limit : Int)
    (activate : Bool) : Except RegErr Store :=
  let cleaned_title := pyStrip title
  if cleaned_title.length < 3 then .error .titleTooShort
  else
    let normalized_event_date := normalize_datetime event_date
    let normalized_delegate_deadline := normalize_datetime delegate_deadline
    if normalized_event_date.wall < normalized_delegate_deadline.wall then
      .error .deadlineAfterDate
    else if delegate_limit < 1 then .error .limitTooSmall
    else
      let event : EventRec :=
        { id := s.nextEventId, title := cleaned_title
          description := sanitize_optional_text description
          event_date := some normalized_event_date
          delegate_deadline := some normalized_delegate_deadline
          is_active := false, is_voting_enabled := false
          delegate_limit := some delegate_limit.toNat
          delegate_lock_override := none }
      let s1 : Store :=
        { s with events := s.events ++ [event], nextEventId := s.nextEventId + 1 }
      let has_active := get_active_voting_event s1
      if activate ∨ has_active = none then
        match set_active_voting_event s1 event.id with
        | .error e => .error e
        | .ok s2 =>
          if activate then
            .ok { s2 with events := s2.events.map (fun e =>
              if e.id == event.id then { e with is_voting_enabled := true } else e) }
          else .ok s2
      else .ok s1

/-- `services.update_voting_event` (never touches the active/enabled
flags). -/
def update_voting_event (s : Store) (event_id : Nat) (title : String)
    (description : Option String) (event_date : DT) (delegate_deadline : DT)
    (delegate_limit : Int) : Except RegErr Store :=
  match get_event s event_id with
  | none => .error .eventNotFound
  | some _ =>
    let cleaned_title := pyStrip title
    if cleaned_title.length < 3 then .error .titleTooShort
    else
      let normalized_event_date := normalize_datetime event_date
      let normalized_delegate_deadline := normalize_datetime delegate_deadline
      if normalized_event_date.wall < normalized_delegate_deadline.wall then
        .error .deadlineAfterDate
      else if delegate_limit < 1 then .error .limitTooSmall
      else
        .ok { s with events := s.events.map (fun e =>
          if e.id == event_id then
            { e with title := cleaned_title
                     description := sanitize_optional_text description
                     event_date := some normalized_event_date
                     delegate_deadline := some normalized_delegate_deadline
                     delegate_limit := some delegate_limit.toNat }
          else e) }

/-- `services.delete_voting_event`: the active event cannot be deleted;
the owned delegate and access-code rows are cascade-deleted with it. -/
def delete_voting_event (s : Store) (event_id : Nat) : Except RegErr Store :=
  match get_event s event_id with
  | none => .error .eventNotFound
  | some event =>
    if event.is_active then .error .activeEventDelete
    else
      .ok { s with
        events := s.events.filter (fun e => ¬ e.id == event_id)
        delegates := s.delegates.filter (fun d => ¬ d.event_id == event_id)
        codes := s.codes.filter (fun c => ¬ c.event_id == event_id) }

/-- `services.reset_voting_events`: deletes every event and delegate row
and clears every user's `is_voting_delegate` flag, returning the count of
removed events. -/
def reset_voting_events (s : Store) : Store × Nat :=
  if s.events.isEmpty then (s, 0)
  else
    ({ s with
        events := []
        delegates := []
        users := s.users.map (fun u =>
          if u.is_voting_delegate then { u with is_voting_delegate := false } else u) },
     s.events.length)

/-- `session.get(Organization, organization_id)`. -/
def get_org (s : Store) (organization_id : Nat) : Option OrgRec :=
  s.orgs.find? (fun o => o.id == organization_id)

/-- `session.get(User, user_id)`. -/
def get_user (s : Store) (user_id : Nat) : Option UserRec :=
  s.users.find? (fun u => u.id == user_id)

/-- The order-preserving first-seen deduplication loop of
`set_event_delegates_for_organization` (`seen` / `normalized_ids`). -/
def dedupFirstSeen (seen : List Nat) : List Nat → List Nat
  | [] => []
  | x :: xs =>
    if x ∈ seen then dedupFirstSeen seen xs
    else x :: dedupFirstSeen (x :: seen) xs

/-- `services._ensure_user_can_delegate`: the user must belong to an
organization, be email-verified and have an approved admin decision. -/
def ensure_user_can_delegate (user : UserRec) : Except RegErr Unit :=
  if user.organization_id = none then .error .userNoOrganization
  else if ¬ user.is_email_verified ∨ user.admin_decision ≠ .approved then
    .error .userNotEligible
  else .ok ()

/-- The candidate-validation loop of `set_event_delegates_for_organization`:
each id must resolve to a user, pass `_ensure_user_can_delegate`, and
belong to the target organization; the whole call fails on the first
violation. -/
def validateDelegateUsers (s : Store) (organization : OrgRec) :
    List Nat → Except RegErr (List (Nat × UserRec))
  | [] => .ok []
  | uid :: rest =>
    match get_user s uid with
    | none => .error .userNotFound
    | some user =>
      match ensure_user_can_delegate user with
      | .error e => .error e
      | .ok _ =>
        if user.organization_id ≠ some organization.id then
          .error .userWrongOrganization
        else
          match validateDelegateUsers s organization rest with
          | .error e => .error e
          | .ok us => .ok ((uid, user) :: us)

/-- Does a delegate row belong to the target (event, organization)? -/
def delegateMatch (eid oid : Nat) (d : DelegateRow) : Bool :=
  d.event_id == eid && d.organization_id == oid

/-- The deletion pass keeps a row unless it targets (event, organization)
and its user is no longer selected. -/
def delegateKeep (eid oid : Nat) (ids : List Nat) (d : DelegateRow) : Bool :=
  !(delegateMatch eid oid d && !(ids.contains d.user_id))

/-- `existing_by_user.get(user_id)`: the dict is keyed by the truthy
`user_id` of the existing rows, later rows overriding earlier ones. -/
def lookupByUser (existing : List DelegateRow) (uid : Nat) : Option DelegateRow :=
  if uid = 0 then none
  else existing.reverse.find? (fun d => d.user_id == uid)

/-- The reuse-or-insert loop over `normalized_ids`: returns the `updated`
result list, the freshly inserted rows, and the next surrogate key. -/
def buildInserts (eid oid : Nat) (lk : Nat → Option DelegateRow) :
    List Nat → Nat → List DelegateRow × List DelegateRow × Nat
  | [], next => ([], [], next)
  | uid :: rest, next =>
    match lk uid with
    | some d =>
      let r := buildInserts eid oid lk rest next
      (d :: r.1, r.2.1, r.2.2)
    | none =>
      let row : DelegateRow :=
        { id := next, event_id := eid, organization_id := oid, user_id := uid }
      let r := buildInserts eid oid lk rest (next + 1)
      (row :: r.1, row :: r.2.1, r.2.2)

/-- The mutation phase of `set_event_delegates_for_organization`: diff the
existing roster rows for (event, organization) against the selection,
delete the deselected ones, reuse the still-selected ones, insert rows
for the newly selected users, and resynchronize delegate flags when the
event is active. -/
def rosterReplace (s : Store) (event : EventRec) (organization : OrgRec)
    (normalized_ids : List Nat) : Store × List DelegateRow :=
  let existing := s.delegates.filter (delegateMatch event.id organization.id)
  let kept := s.delegates.filter (delegateKeep event.id organization.id normalized_ids)
  let r := buildInserts event.id organization.id (lookupByUser existing)
    normalized_ids s.nextDelegateId
  let s1 := { s with delegates := kept ++ r.2.1, nextDelegateId := r.2.2 }
  let s2 := if event.is_active then synchronize_delegate_flags s1 (some event.id) else s1
  (s2, r.1)

/-- `services.set_event_delegates_for_organization`: the checks run in
source order (event lookup, lock state, organization lookup, dedup +
limit, per-user validation) and all precede any mutation, so an error
leaves the roster untouched. -/
def set_event_delegates_for_organization (zone : Zone) (now : DT) (s : Store)
    (event_id organization_id : Nat) (user_ids : List Nat) :
    Except RegErr (Store × List DelegateRow) :=
  match get_event s event_id with
  | none => .error .eventNotFound
  | some event =>
    if (delegate_lock_state zone event now).locked then .error .rosterLocked
    else
      match get_org s organization_id with
      | none => .error .orgNotFound
      | some organization =>
        let normalized_ids := dedupFirstSeen [] user_ids
        let limit_ok : Bool :=
          match event.delegate_limit with
          | none => true
          | some lim => normalized_ids.length ≤ lim
        if ¬ limit_ok then .error .limitExceeded
        else
          match validateDelegateUsers s organization normalized_ids with
          | .error e => .error e
          | .ok _ => .ok (rosterReplace s event organization normalized_ids)

/-- A candidate user id the spec rejects: no such user, or a user outside
the target organization, unverified, or without an approved decision. -/
def BadUser (s : Store) (organization : OrgRec) (uid : Nat) : Prop :=
  get_user s uid = none ∨
    ∃ u, get_user s uid = some u ∧
      (u.organization_id ≠ some organization.id ∨
        u.is_email_verified = false ∨ u.admin_decision ≠ .approved)

/-- `services.ACCESS_CODE_ALPHABET`: 32 symbols, no 0/O/1/I. -/
def ACCESS_CODE_ALPHABET : String := "23456789ABCDEFGHJKLMNPQRSTUVWXYZ"

/-- `services.ACCESS_CODE_LENGTH`. -/
def ACCESS_CODE_LENGTH : Nat := 8

/-- The error kinds of the access-code operations: one constructor per
distinct raise site (`RegistrationError`, the
`VotingAccessCodeUnavailableError` subclass, and the
`VotingAccessCodeError` messages), plus a model-only constructor for
exhaustion of the modelled random stream (the source retries forever). -/
inductive CodeErr where
  | eventNotFound
  | unavailable
  | missingCode
  | malformed
  | invalid
  | alreadyUsed
  | randomSourceExhausted
  deriving Repr, DecidableEq

/-- A raw draw of `secrets.choice(ACCESS_CODE_ALPHABET)` repeated
`ACCESS_CODE_LENGTH` times: 8 symbols from the alphabet. -/
def validRaw (raw : String) : Prop :=
  raw.data.length = ACCESS_CODE_LENGTH ∧ ∀ c ∈ raw.data, c ∈ ACCESS_CODE_ALPHABET.data

/-- `"-".join(raw[i:i+4] for i in range(0, len(raw), 4))` at the fixed
length 8: `XXXX-XXXX`. -/
def formatAccessCode (raw : String) : String :=
  String.mk (raw.data.take 4) ++ "-" ++ String.mk (raw.data.drop 4)

/-- `services._generate_access_code`: draw candidates until one formats
to a code unseen among `existing`; the secure random source is modelled
as the list `rands` of raw draws, and exhaustion returns `none`. -/
def generateAccessCode (existing : List String) : List String → Option (String × List String)
  | [] => none
  | raw :: rest =>
    let formatted := formatAccessCode raw
    if formatted ∈ existing then generateAccessCode existing rest
    else some (formatted, rest)

/-- The `for _ in range(missing)` loop of `generate_voting_access_codes`:
each accepted code joins the `existing` set before the next draw. -/
def genAccessCodes (existing : List String) : Nat → List String → Option (List String × List String)
  | 0, rands => some ([], rands)
  | k + 1, rands =>
    match generateAccessCode existing rands with
    | none => none
    | some (c, rest) =>
      match genAccessCodes (c :: existing) k rest with
      | none => none
      | some (cs, rest') => some (c :: cs, rest')

/-- Fresh `VotingAccessCode` rows for the newly generated codes. -/
def buildCodeRows (event_id : Nat) : List String → Nat → List CodeRow
  | [], _ => []
  | c :: cs, next =>
    { id := next, event_id := event_id, code := c
      used_at := none, used_by_user_id := none } :: buildCodeRows event_id cs (next + 1)

/-- `services.generate_voting_access_codes`: requires the event and at
least one delegate row (else the distinct unavailable error); with
`regenerate` all existing codes of the event are deleted first; then
`max(delegate_total - |existing|, 0)` fresh codes are generated, each
checked against the existing set.  (The source returns the event's rows
sorted by code for display; the returned list here is the event's rows
in table order.) -/
def generate_voting_access_codes (s : Store) (event_id : Nat) (regenerate : Bool)
    (rands : List String) : Except CodeErr (Store × List CodeRow) :=
  match get_event s event_id with
  | none => .error .eventNotFound
  | some _ =>
    let delegate_total := (s.delegates.filter (fun d => d.event_id == event_id)).length
    if delegate_total = 0 then .error .unavailable
    else
      let s1 := if regenerate then
          { s with codes := s.codes.filter (fun c => ¬ c.event_id == event_id) }
        else s
      let existing_codes := (s1.codes.filter (fun c => c.event_id == event_id)).map (·.code)
      let missing := delegate_total - existing_codes.length
      match genAccessCodes existing_codes missing rands with
      | none => .error .randomSourceExhausted
      | some (new_codes, _) =>
        let newRows := buildCodeRows event_id new_codes s1.nextCodeId
        let s2 := { s1 with codes := s1.codes ++ newRows, nextCodeId := s1.nextCodeId + new_codes.length }
        .ok (s2, (s1.codes.filter (fun c => c.event_id == event_id)) ++ newRows)

/-- `services._canonicalize_access_code`: uppercase, strip
non-alphanumerics, accept the empty result unchecked, reject any other
length than 8, then re-hyphenate in groups of 4. -/
def canonicalize_access_code (value : String) : Except CodeErr String :=
  let cleaned := String.mk ((pyUpper value).data.filter Char.isAlphanum)
  if cleaned = "" then .ok ""
  else if cleaned.data.length ≠ ACCESS_CODE_LENGTH then .error .malformed
  else .ok (String.mk (cleaned.data.take 4) ++ "-" ++ String.mk (cleaned.data.drop 4))

/-- The `select ... limit(1)` lookup plus the used check and the stamping
of `redeem_voting_access_code`, as one pass over the codes table: the
first row matching (event, canonical) decides the outcome. -/
def redeemLookup (event_id : Nat) (canonical : String) (now : Int) (user_id : Nat) :
    List CodeRow → Except CodeErr (List CodeRow × CodeRow)
  | [] => .error .invalid
  | r :: rest =>
    if r.event_id == event_id && r.code == canonical then
      if r.used_at.isSome then .error .alreadyUsed
      else
        let stamped := { r with used_at := some now, used_by_user_id := if user_id ≠ 0 then some user_id else none }
        .ok (stamped :: rest, stamped)
    else
      match redeemLookup event_id canonical now user_id rest with
      | .error e => .error e
      | .ok (rest', row) => .ok (r :: rest', row)

/-- `services.redeem_voting_access_code`. -/
def redeem_voting_access_code (s : Store) (event_id : Nat) (code_value : String)
    (user_id : Nat) (now : Int) : Except CodeErr (Store × CodeRow) :=
  if code_value = "" then .error .missingCode
  else
    match canonicalize_access_code code_value with
    | .error e => .error e
    | .ok canonical =>
      match redeemLookup event_id canonical now user_id s.codes with
      | .error e => .error e
      | .ok (codes', row) => .ok ({ s with codes := codes' }, row)

/-- `schemas.VotingAuthRequest` (pydantic already strips the signature;
the handler strips again before comparing). -/
structure VotingAuthRequest where
  email : String
  password : String
  timestamp : Int
  signature : String
  deriving Repr, DecidableEq

/-- `main.VOTING_AUTH_TTL_SECONDS` (env override, default "60"). -/
def VOTING_AUTH_TTL_SECONDS : Int := 60

/-- The two failure classes of `main._validate_voting_auth_request`:
HTTP 400 for the freshness window, HTTP 403 for a signature mismatch. -/
inductive AuthErr where
  | expired
  | forbidden
  deriving Repr, DecidableEq

/-- `main._validate_voting_auth_request`.  `hmacHex` models
`hmac.new(secret, ·, sha256).hexdigest()` — the keyed digest under the
shared secret — as an opaque function; `compare_digest` compares for
equality in constant time, which this embedding renders as equality. -/
def validate_voting_auth_request (hmacHex : String → String) (ttl now : Int)
    (payload : VotingAuthRequest) : Except AuthErr Unit :=
  if abs (now - payload.timestamp) > max ttl 1 then .error .expired
  else
    let canonical_email := pyLower payload.email
    let message := toString payload.timestamp ++ ":" ++ canonical_email ++ ":"
      ++ payload.password
    let expected_signature := hmacHex message
    let provided_signature := pyLower (pyStrip payload.signature)
    if expected_signature = provided_signature then .ok ()
    else .error .forbidden

/-- The distinct failures of `main.create_voting_o2auth_session`, in
raise order. -/
inductive LaunchErr where
  | membershipForbidden
  | orgNotFound
  | feeUnpaid
  | noActiveEvent
  | adminViewForbidden
  | notDelegate
  deriving Repr, DecidableEq

/-- `main.ensure_organization_membership`: admins pass; anyone else must
belong to the target organization. -/
def ensure_organization_membership (user : UserRec) (organization_id : Nat) :
    Except LaunchErr Unit :=
  if user.is_admin then .ok ()
  else
    match user.organization_id with
    | none => .error .membershipForbidden
    | some oid => if oid ≠ organization_id then .error .membershipForbidden else .ok ()

/-- `(launch.view if launch else "default") or "default"`. -/
def resolveView (view : Option String) : String :=
  match view with
  | none => "default"
  | some v => if v = "" then "default" else v

/-- `main.create_voting_o2auth_session` up to the minting step: the
authorization preconditions in source order, each failing distinctly; on
success the handler mints the launch token for the active event and the
requested view (token serialization is out of scope here, so the result
carries the active event id and resolved view). -/
def create_voting_o2auth_session (s : Store) (user : UserRec) (organization_id : Nat)
    (view : Option String) : Except LaunchErr (Nat × String) :=
  match ensure_organization_membership user organization_id with
  | .error e => .error e
  | .ok _ =>
    match get_org s organization_id with
    | none => .error .orgNotFound
    | some organization =>
      if ¬ organization.fee_paid then .error .feeUnpaid
      else
        match get_active_voting_event s with
        | none => .error .noActiveEvent
        | some active_event =>
          let requested_view := resolveView view
          if requested_view = "admin" ∧ ¬ user.is_admin then
            .error .adminViewForbidden
          else if ¬ user.is_admin ∧ requested_view ≠ "public" ∧
              ¬ (s.delegates.any (fun d => d.event_id == active_event.id
                && d.organization_id == organization.id && d.user_id == user.id)) then
            .error .notDelegate
          else .ok (active_event.id, requested_view)

/-- The conjoined store invariant of §8: at most one active event, and
voting is only enabled on an active event. -/
def EventInvariant (events : List EventRec) : Prop :=
  events.countP (·.is_active) ≤ 1 ∧
    ∀ e ∈ events, e.is_voting_enabled → e.is_active

instance : DecidablePred EventInvariant := fun events =>
  inferInstanceAs (Decidable (_ ∧ _))

/-- A small concrete store (two events, one organization, one delegate)
used to evaluate the operations on closed inputs. -/
def demoStoreA : Store :=
  { events := [
      { id := 1, title := "Alpha", description := none
        event_date := some ⟨100, none⟩, delegate_deadline := some ⟨50, none⟩
        is_active := true, is_voting_enabled := true
        delegate_limit := some 2, delegate_lock_override := none },
      { id := 2, title := "Beta", description := none
        event_date := some ⟨200, none⟩, delegate_deadline := some ⟨150, none⟩
        is_active := false, is_voting_enabled := false
        delegate_limit := some 2, delegate_lock_override := none }]
    orgs := [{ id := 1, fee_paid := true }]
    users := [{ id := 1, organization_id := some 1, is_email_verified := true
                is_admin := false, admin_decision := .approved
                is_voting_delegate := false }]
    delegates := [{ id := 1, event_id := 2, organization_id := 1, user_id := 1 }]
    codes := []
    nextEventId := 3, nextDelegateId := 2, nextCodeId := 1 }

/-- The store produced by activating event 2 of `demoStoreA`. -/
def demoStoreA_activated : Store :=
  (set_active_voting_event demoStoreA 2).toOption.getD demoStoreA

/-- The demo user of `demoStoreA` as they appear after activating event 2
(their delegate flag has been switched on by the resynchronization). -/
def demoUser1After : UserRec :=
  { id := 1, organization_id := some 1, is_email_verified := true
    is_admin := false, admin_decision := .approved, is_voting_delegate := true }

/-- A fixed-offset stand-in for the configured local zone in concrete
evaluations. -/
def demoZone : Zone := fun _ => 0

/-- A concrete "now" (naive, wall 0) for concrete evaluations. -/
def demoNow : DT := { wall := 0, tz := none }

/-- The single event of `demoStoreB` (deadline still pending at
`demoNow`). -/
def demoEventB : EventRec :=
  { id := 10, title := "Gala", description := none
    event_date := some ⟨100, none⟩, delegate_deadline := some ⟨50, none⟩
    is_active := false, is_voting_enabled := false
    delegate_limit := some 2, delegate_lock_override := none }

/-- The single organization of `demoStoreB`. -/
def demoOrgB : OrgRec := { id := 5, fee_paid := true }

/-- A store with one event, one organization and two eligible members,
used to exercise the roster-replacement scenario. -/
def demoStoreB : Store :=
  { events := [demoEventB]
    orgs := [demoOrgB]
    users := [
      { id := 1, organization_id := some 5, is_email_verified := true
        is_admin := false, admin_decision := .approved, is_voting_delegate := false },
      { id := 2, organization_id := some 5, is_email_verified := true
        is_admin := false, admin_decision := .approved, is_voting_delegate := false }]
    delegates := []
    codes := []
    nextEventId := 11, nextDelegateId := 100, nextCodeId := 1 }

/-- `demoStoreB` after assigning users [1, 2] as delegates of
organization 5 on event 10. -/
def demoStoreB_assigned : Store :=
  ((set_event_delegates_for_organization demoZone demoNow demoStoreB 10 5
    [1, 2]).toOption.map Prod.fst).getD demoStoreB

/-- `demoStoreB_assigned` after re-assigning with just [2]. -/
def demoStoreB_reassigned : Store :=
  ((set_event_delegates_for_organization demoZone demoNow demoStoreB_assigned 10 5
    [2]).toOption.map Prod.fst).getD demoStoreB_assigned

/-- The `updated` list returned by the re-assignment call. -/
def demoUpdB : List DelegateRow :=
  ((set_event_delegates_for_organization demoZone demoNow demoStoreB_assigned 10 5
    [2]).toOption.map Prod.snd).getD []

/-- The unused access-code row of `demoStoreE`. -/
def demoRowE0 : CodeRow :=
  { id := 500, event_id := 10, code := "AB23-CD45", used_at := none, used_by_user_id := none }

/-- `demoStoreB` with one unused access code for event 10. -/
def demoStoreE : Store :=
  { demoStoreB with codes := [demoRowE0] }

/-- `demoStoreE` after redeeming that code from its raw input form. -/
def demoStoreE_redeemed : Store :=
  ((redeem_voting_access_code demoStoreE 10 "ab23 cd45" 1 77).toOption.map
    Prod.fst).getD demoStoreE

/-- The stamped row returned by that redemption. -/
def demoRowE : CodeRow :=
  ((redeem_voting_access_code demoStoreE 10 "ab23 cd45" 1 77).toOption.map
    Prod.snd).getD
    { id := 0, event_id := 0, code := "", used_at := none, used_by_user_id := none }

/-- `demoStoreB` with the organization's fee unpaid. -/
def demoStoreF : Store :=
  { demoStoreB with orgs := [{ id := 5, fee_paid := false }] }

/-- The non-admin member of organization 5 in the demo stores. -/
def demoUserF : UserRec :=
  { id := 1, organization_id := some 5, is_email_verified := true
    is_admin := false, admin_decision := .approved, is_voting_delegate := false }

/-- A concrete stand-in for the keyed HMAC digest in closed evaluations:
two distinct lowercase outputs separating the reference message from all
others. -/
def demoHmac : String → String :=
  fun m => if m = "5:a@b.c:pw" then "aaaa" else "bbbb"

/-- A correctly signed inbound auth payload for `demoHmac` at time 5. -/
def demoAuthPayload : VotingAuthRequest :=
  { email := "A@b.c", password := "pw", timestamp := 5, signature := " AAAA " }

/-! ### Helper lemmas about the activation loop body and the store -/

theorem actMap_id (t : Nat) (e : EventRec) : (actMap t e).id = e.id := by
  simp only [actMap]
  split <;> rfl

theorem actMap_active (t : Nat) (e : EventRec) :
    (actMap t e).is_active = (e.id == t) := by
  simp only [actMap]
  split <;> rfl

theorem actMap_enabled (t : Nat) (e : EventRec) :
    (actMap t e).is_voting_enabled = if e.id = t then e.is_voting_enabled else false := by
  simp only [actMap]
  split
  · next h => rw [if_neg h.1]
  · next h =>
    by_cases ht : e.id = t
    · rw [if_pos ht]
    · rw [if_neg ht]
      cases hb : e.is_voting_enabled
      · rfl
      · exact absurd ⟨ht, hb⟩ h

theorem actMap_idem (t : Nat) (e : EventRec) : actMap t (actMap t e) = actMap t e := by
  unfold actMap
  by_cases h1 : e.id = t
  · simp [h1]
  · by_cases h2 : e.is_voting_enabled = true <;> simp [h1, h2]

theorem sync_events (st : Store) (a : Option Nat) :
    (synchronize_delegate_flags st a).events = st.events := rfl

theorem sync_delegates (st : Store) (a : Option Nat) :
    (synchronize_delegate_flags st a).delegates = st.delegates := rfl

theorem sync_users (st : Store) (a : Option Nat) :
    (synchronize_delegate_flags st a).users = st.users.map (fun u =>
      if u.is_admin then u
      else { u with is_voting_delegate := (activeDelegateIds st a).contains u.id }) := rfl

theorem get_event_mem {s : Store} {eid : Nat} {e : EventRec}
    (h : get_event s eid = some e) : e ∈ s.events ∧ e.id = eid := by
  refine ⟨List.mem_of_find?_eq_some h, ?_⟩
  have hp := List.find?_some h
  simpa using hp

theorem eq_of_mem_id {l : List EventRec} (h : (l.map (·.id)).Nodup)
    {a b : EventRec} (ha : a ∈ l) (hb : b ∈ l) (hab : a.id = b.id) : a = b := by
  induction l with
  | nil => cases ha
  | cons x l ih =>
    simp only [List.map_cons, List.nodup_cons] at h
    rcases List.mem_cons.mp ha with rfl | ha' <;> rcases List.mem_cons.mp hb with rfl | hb'
    · rfl
    · apply absurd _ h.1
      rw [hab]
      exact List.mem_map_of_mem _ hb'
    · apply absurd _ h.1
      rw [← hab]
      exact List.mem_map_of_mem _ ha'
    · exact ih h.2 ha' hb'

theorem countP_id_le_one (t : Nat) (l : List EventRec)
    (h : (l.map (·.id)).Nodup) : l.countP (fun e => e.id == t) ≤ 1 := by
  induction l with
  | nil => simp
  | cons e l ih =>
    simp only [List.map_cons, List.nodup_cons] at h
    rw [List.countP_cons]
    by_cases he : e.id = t
    · have hz : l.countP (fun e => e.id == t) = 0 := by
        rw [List.countP_eq_zero]
        intro a ha hpa
        have hat : a.id = t := by simpa using hpa
        apply h.1
        have hm : a.id ∈ l.map (·.id) := List.mem_map_of_mem _ ha
        rwa [hat, ← he] at hm
      simp [hz, he]
    · have : (e.id == t) = false := by simpa using he
      simp only [this, if_false]
      simpa using ih h.2

theorem EventInvariant_map_actMap (t : Nat) (l : List EventRec)
    (h : (l.map (·.id)).Nodup) : EventInvariant (l.map (actMap t)) := by
  constructor
  · rw [List.countP_map]
    have hcg : ((fun e : EventRec => e.is_active) ∘ actMap t) = fun e => e.id == t := by
      funext e
      simp [Function.comp, actMap_active]
    rw [hcg]
    exact countP_id_le_one t l h
  · intro e' he' hen
    rcases List.mem_map.mp he' with ⟨e, he, rfl⟩
    rw [actMap_active]
    rw [actMap_enabled] at hen
    by_cases ht : e.id = t
    · simp [ht]
    · rw [if_neg ht] at hen
      cases hen

theorem map_actMap_post (t : Nat) (l : List EventRec) :
    ∀ e ∈ l.map (actMap t),
      e.is_active = (e.id == t) ∧ (e.id ≠ t → e.is_voting_enabled = false) := by
  intro e' he'
  rcases List.mem_map.mp he' with ⟨e, _, rfl⟩
  refine ⟨by rw [actMap_active, actMap_id], ?_⟩
  intro hne
  rw [actMap_id] at hne
  rw [actMap_enabled, if_neg hne]

theorem set_active_ok {s : Store} {t : Nat} {s' : Store}
    (h : set_active_voting_event s t = .ok s') :
    (get_event s t).isSome ∧
      s' = synchronize_delegate_flags
        { s with events := s.events.map (actMap t) } (some t) := by
  unfold set_active_voting_event at h
  cases hg : get_event s t with
  | none => rw [hg] at h; cases h
  | some e =>
    rw [hg] at h
    simp only at h
    injection h with h
    exact ⟨rfl, h.symm⟩

theorem accessibility_ok {s : Store} {t : Nat} {b : Bool} {s' : Store}
    (h : set_voting_event_accessibility s t b = .ok s') :
    ∃ e, get_event s t = some e ∧ ¬(b ∧ ¬e.is_active) ∧
      s'.events = s.events.map (fun x =>
        if x.id == t then { x with is_voting_enabled := b } else x) := by
  unfold set_voting_event_accessibility at h
  cases hg : get_event s t with
  | none => rw [hg] at h; cases h
  | some e =>
    rw [hg] at h
    simp only at h
    split at h
    · cases h
    · next hc =>
      injection h with h
      exact ⟨e, rfl, hc, by rw [← h]⟩

/-- Invariant preservation for a per-row update that never touches the
`is_active` and `is_voting_enabled` columns. -/
theorem EventInvariant_map_flag_preserving (l : List EventRec)
    (g : EventRec → EventRec)
    (hact : ∀ e, (g e).is_active = e.is_active)
    (hen : ∀ e, (g e).is_voting_enabled = e.is_voting_enabled)
    (h : EventInvariant l) : EventInvariant (l.map g) := by
  constructor
  · rw [List.countP_map]
    calc l.countP ((fun e : EventRec => e.is_active) ∘ g)
        = l.countP (·.is_active) := by
          apply List.countP_congr
          intro e _
          simp [Function.comp, hact]
      _ ≤ 1 := h.1
  · intro e' he' henb
    rcases List.mem_map.mp he' with ⟨e, he, rfl⟩
    rw [hact]
    rw [hen] at henb
    exact h.2 e he henb

theorem countP_congr_eq {α : Type} (l : List α) (p q : α → Bool)
    (h : ∀ a ∈ l, p a = q a) : l.countP p = l.countP q := by
  induction l with
  | nil => rfl
  | cons a l ih =>
    rw [List.countP_cons, List.countP_cons, h a (List.mem_cons_self a l),
      ih (fun b hb => h b (List.mem_cons_of_mem _ hb))]

theorem EventInvariant_append_inactive (l : List EventRec) (h : EventInvariant l)
    (x : EventRec) (hna : x.is_active = false) (hne : x.is_voting_enabled = false) :
    EventInvariant (l ++ [x]) := by
  constructor
  · rw [List.countP_append]
    have hz : [x].countP (·.is_active) = 0 := by simp [hna]
    rw [hz]
    simpa using h.1
  · intro e he hen
    rcases List.mem_append.mp he with h1 | h1
    · exact h.2 e h1 hen
    · rcases List.mem_singleton.mp h1 with rfl
      rw [hne] at hen
      cases hen

theorem nodup_ids_append_fresh (l : List EventRec)
    (hids : (l.map (·.id)).Nodup) (n : Nat) (hf : ∀ e ∈ l, e.id < n)
    (x : EventRec) (hx : x.id = n) : ((l ++ [x]).map (·.id)).Nodup := by
  rw [List.map_append]
  apply List.Nodup.append hids (List.nodup_singleton _)
  intro a ha ha2
  simp only [List.map_cons, List.map_nil, List.mem_singleton] at ha2
  rcases List.mem_map.mp ha with ⟨e0, he0, rfl⟩
  have hlt := hf e0 he0
  rw [ha2, hx] at hlt
  exact absurd hlt (lt_irrefl n)

theorem EventInvariant_enable_target (t : Nat) (l : List EventRec)
    (hpost : ∀ e ∈ l, e.is_active = (e.id == t) ∧ (e.id ≠ t → e.is_voting_enabled = false))
    (hcount : l.countP (·.is_active) ≤ 1) :
    EventInvariant (l.map (fun e =>
      if e.id == t then { e with is_voting_enabled := true } else e)) := by
  constructor
  · rw [List.countP_map]
    have hc : l.countP ((fun e : EventRec => e.is_active) ∘ fun e =>
        if e.id == t then { e with is_voting_enabled := true } else e)
        = l.countP (·.is_active) := by
      apply countP_congr_eq
      intro x _
      by_cases hx : (x.id == t) = true <;> simp [Function.comp, hx]
    rw [hc]
    exact hcount
  · intro e' he' hen
    rcases List.mem_map.mp he' with ⟨x, hx, rfl⟩
    by_cases hxt : (x.id == t) = true
    · rw [if_pos hxt] at hen ⊢
      show x.is_active = true
      rw [(hpost x hx).1]
      exact hxt
    · rw [if_neg hxt] at hen ⊢
      have hz := (hpost x hx).2 (by simpa using hxt)
      rw [hz] at hen
      cases hen

/-- C1: the conjoined store invariant — at most one `VotingEvent` with
`is_active = true`, and `is_voting_enabled = true` only on an active
event — is preserved by event creation, activation, the voting-enable
toggle, update, deletion and reset; activation sets `is_active` exactly
on the target and force-clears `is_voting_enabled` on every event losing
active status; and enabling voting on a non-active event fails. -/
theorem voting_event_invariant_preserved (s : Store)
    (hinv : EventInvariant s.events)
    (hids : (s.events.map (·.id)).Nodup)
    (hfresh : ∀ e ∈ s.events, e.id < s.nextEventId) :
    (∀ title description event_date delegate_deadline delegate_limit activate s',
        create_voting_event s title description event_date delegate_deadline
          delegate_limit activate = .ok s' → EventInvariant s'.events) ∧
    (∀ event_id s', set_active_voting_event s event_id = .ok s' →
        EventInvariant s'.events ∧
        ∀ e ∈ s'.events, e.is_active = (e.id == event_id) ∧
          (e.id ≠ event_id → e.is_voting_enabled = false)) ∧
    (∀ event_id enabled s',
        set_voting_event_accessibility s event_id enabled = .ok s' →
        EventInvariant s'.events) ∧
    (∀ event_id e, get_event s event_id = some e → ¬ e.is_active = true →
        set_voting_event_accessibility s event_id true = .error .votingEnableInactive) ∧
    (∀ event_id title description event_date delegate_deadline delegate_limit s',
        update_voting_event s event_id title description event_date delegate_deadline
          delegate_limit = .ok s' → EventInvariant s'.events) ∧
    (∀ event_id s', delete_voting_event s event_id = .ok s' → EventInvariant s'.events) ∧
    EventInvariant (reset_voting_events s).1.events := by
  refine ⟨?_, ?_, ?_, ?_, ?_, ?_, ?_⟩
  · -- creation
    intro title d ed dl lim act s' h
    simp only [create_voting_event] at h
    split at h
    · cases h
    split at h
    · cases h
    split at h
    · cases h
    split at h
    · -- activation branch
      split at h
      · cases h
      · next s2 heq =>
        obtain ⟨-, hs2⟩ := set_active_ok heq
        have hids1 : (((s.events ++
            [({ id := s.nextEventId, title := pyStrip title
                description := sanitize_optional_text d
                event_date := some (normalize_datetime ed)
                delegate_deadline := some (normalize_datetime dl)
                is_active := false, is_voting_enabled := false
                delegate_limit := some lim.toNat
                delegate_lock_override := none } : EventRec)]).map (·.id)).Nodup) :=
          nodup_ids_append_fresh s.events hids s.nextEventId hfresh _ rfl
        split at h
        · -- activate = true: voting enabled immediately on the new event
          injection h with h
          rw [← h, hs2]
          apply EventInvariant_enable_target
          · exact map_actMap_post _ _
          · exact (EventInvariant_map_actMap _ _ hids1).1
        · -- activated because no event was active
          injection h with h
          rw [← h, hs2]
          exact EventInvariant_map_actMap _ _ hids1
    · -- not activated: the new event is appended inactive
      injection h with h
      rw [← h]
      exact EventInvariant_append_inactive s.events hinv _ rfl rfl
  · -- activation
    intro t s' h
    obtain ⟨-, hs'⟩ := set_active_ok h
    subst hs'
    exact ⟨EventInvariant_map_actMap t s.events hids, map_actMap_post t s.events⟩
  · -- voting-enable toggle, success case
    intro t b s' h
    obtain ⟨e, hg, hc, hev⟩ := accessibility_ok h
    rw [hev]
    constructor
    · rw [List.countP_map]
      have hcp : s.events.countP ((fun e : EventRec => e.is_active) ∘ fun x =>
          if x.id == t then { x with is_voting_enabled := b } else x)
          = s.events.countP (·.is_active) := by
        apply countP_congr_eq
        intro x _
        by_cases hx : (x.id == t) = true <;> simp [Function.comp, hx]
      rw [hcp]
      exact hinv.1
    · intro e' he' hene
      rcases List.mem_map.mp he' with ⟨x, hx, rfl⟩
      by_cases hxt : (x.id == t) = true
      · rw [if_pos hxt] at hene ⊢
        have hbe : b = true := hene
        subst hbe
        obtain ⟨hem, heid⟩ := get_event_mem hg
        have hxe : x = e := by
          apply eq_of_mem_id hids hx hem
          rw [heid]
          simpa using hxt
        have hea : e.is_active = true := by
          by_contra hna
          exact hc ⟨rfl, hna⟩
        show x.is_active = true
        rw [hxe]
        exact hea
      · rw [if_neg hxt] at hene ⊢
        exact hinv.2 x hx hene
  · -- enabling voting on a non-active event fails
    intro t e hg hna
    simp [set_voting_event_accessibility, hg, hna]
  · -- update
    intro t title d ed dl lim s' h
    unfold update_voting_event at h
    cases hg : get_event s t with
    | none => rw [hg] at h; cases h
    | some e =>
      rw [hg] at h
      simp only at h
      split at h
      · cases h
      split at h
      · cases h
      split at h
      · cases h
      injection h with h
      rw [← h]
      apply EventInvariant_map_flag_preserving _ _ ?_ ?_ hinv
      · intro x
        by_cases hx : (x.id == t) = true <;> simp [hx]
      · intro x
        by_cases hx : (x.id == t) = true <;> simp [hx]
  · -- deletion
    intro t s' h
    unfold delete_voting_event at h
    cases hg : get_event s t with
    | none => rw [hg] at h; cases h
    | some e =>
      rw [hg] at h
      simp only at h
      split at h
      · cases h
      injection h with h
      rw [← h]
      constructor
      · calc (s.events.filter (fun e => ¬ e.id == t)).countP (·.is_active)
            ≤ s.events.countP (·.is_active) :=
              List.Sublist.countP_le _ (List.filter_sublist _)
          _ ≤ 1 := hinv.1
      · intro e' he' hen
        exact hinv.2 e' (List.mem_of_mem_filter he') hen
  · -- reset
    unfold reset_voting_events
    split
    · exact hinv
    · exact ⟨by simp, fun e he => absurd he (List.not_mem_nil e)⟩

/-- Witness for C1: activating event 2 of the two-event demo store yields
a store satisfying the invariant. -/
theorem voting_event_invariant_preserved_witness :
    EventInvariant demoStoreA_activated.events := by
  have h := voting_event_invariant_preserved demoStoreA (by decide) (by decide) (by decide)
  exact (h.2.1 2 demoStoreA_activated rfl).1

theorem flagMap_idem (ids : List Nat) (l : List UserRec) :
    (l.map (fun u => if u.is_admin then u
        else { u with is_voting_delegate := ids.contains u.id })).map
      (fun u => if u.is_admin then u
        else { u with is_voting_delegate := ids.contains u.id })
      = l.map (fun u => if u.is_admin then u
          else { u with is_voting_delegate := ids.contains u.id }) := by
  rw [List.map_map]
  apply List.map_eq_map_iff.mpr
  intro u _
  by_cases h : u.is_admin = true
  · simp [Function.comp, h]
  · simp [Function.comp, h]

theorem find?_map_actMap_isSome (t x : Nat) (l : List EventRec) :
    ((l.map (actMap t)).find? (fun e => e.id == x)).isSome
      = (l.find? (fun e => e.id == x)).isSome := by
  induction l with
  | nil => rfl
  | cons e l ih =>
    by_cases h : (e.id == x) = true
    · have h' : ((actMap t e).id == x) = true := by rw [actMap_id]; exact h
      rw [List.map_cons,
        @List.find?_cons_of_pos _ (fun e => e.id == x) (actMap t e) (l.map (actMap t)) h',
        @List.find?_cons_of_pos _ (fun e => e.id == x) e l h]
      rfl
    · have h' : ¬ ((actMap t e).id == x) = true := by rw [actMap_id]; exact h
      rw [List.map_cons,
        @List.find?_cons_of_neg _ (fun e => e.id == x) (actMap t e) (l.map (actMap t)) h',
        @List.find?_cons_of_neg _ (fun e => e.id == x) e l h]
      exact ih

theorem activeDelegateIds_of_isSome {st : Store} {x : Nat}
    (h : (get_event st x).isSome = true) :
    activeDelegateIds st (some x)
      = (st.delegates.filter (fun d => d.event_id == x)).filterMap
          (fun d => if d.user_id ≠ 0 then some d.user_id else none) := by
  cases hg : get_event st x with
  | none => rw [hg] at h; cases h
  | some e => simp only [activeDelegateIds, hg]

theorem sync_sync_some (st : Store) (x : Nat) :
    synchronize_delegate_flags (synchronize_delegate_flags st (some x)) (some x)
      = synchronize_delegate_flags st (some x) := by
  obtain ⟨ev, og, us, dl, cd, n1, n2, n3⟩ := st
  cases hg : ev.find? (fun e => e.id == x) with
  | none =>
    simp only [synchronize_delegate_flags, activeDelegateIds, get_event, hg]
    rw [flagMap_idem]
  | some e =>
    simp only [synchronize_delegate_flags, activeDelegateIds, get_event, hg]
    rw [flagMap_idem]

theorem set_active_again {s : Store} {x : Nat} {s1 : Store}
    (h1 : set_active_voting_event s x = .ok s1) :
    set_active_voting_event s1 x = .ok s1 := by
  obtain ⟨hg1, hs1⟩ := set_active_ok h1
  subst hs1
  have hg' : (get_event (synchronize_delegate_flags
      { s with events := s.events.map (actMap x) } (some x)) x).isSome = true := by
    show ((s.events.map (actMap x)).find? (fun e => e.id == x)).isSome = true
    rw [find?_map_actMap_isSome]
    exact hg1
  unfold set_active_voting_event
  cases hgE : get_event (synchronize_delegate_flags
      { s with events := s.events.map (actMap x) } (some x)) x with
  | none => rw [hgE] at hg'; cases hg'
  | some e =>
    simp only
    have hev : (synchronize_delegate_flags
        { s with events := s.events.map (actMap x) } (some x)).events.map (actMap x)
        = (synchronize_delegate_flags
          { s with events := s.events.map (actMap x) } (some x)).events := by
      show (s.events.map (actMap x)).map (actMap x) = s.events.map (actMap x)
      rw [List.map_map]
      apply List.map_eq_map_iff.mpr
      intro e _
      exact actMap_idem x e
    rw [hev]
    exact congrArg Except.ok
      (sync_sync_some { s with events := s.events.map (actMap x) } x)

theorem mem_activeDelegateIds {st : Store} {x : Nat}
    (hsome : (get_event st x).isSome = true) (uid : Nat) (hz : uid ≠ 0) :
    uid ∈ activeDelegateIds st (some x)
      ↔ ∃ d ∈ st.delegates, d.event_id = x ∧ d.user_id = uid := by
  rw [activeDelegateIds_of_isSome hsome]
  constructor
  · intro hm
    rcases List.mem_filterMap.mp hm with ⟨d, hdf, hdeq⟩
    rcases List.mem_filter.mp hdf with ⟨hdm, hdev⟩
    by_cases hdu : d.user_id ≠ 0
    · rw [if_pos hdu] at hdeq
      injection hdeq with hdeq
      exact ⟨d, hdm, by simpa using hdev, hdeq⟩
    · rw [if_neg hdu] at hdeq
      cases hdeq
  · rintro ⟨d, hdm, hdev, hdu⟩
    apply List.mem_filterMap.mpr
    refine ⟨d, List.mem_filter.mpr ⟨hdm, by simpa using hdev⟩, ?_⟩
    rw [if_pos (by rw [hdu]; exact hz), hdu]

theorem sync_user_flag_iff (st : Store) (x : Nat) (u0 : UserRec)
    (hsome : (get_event st x).isSome = true) (hz : u0.id ≠ 0)
    (ha : ¬ u0.is_admin = true) :
    ((if u0.is_admin then u0
        else { u0 with is_voting_delegate :=
          (activeDelegateIds st (some x)).contains u0.id }).is_voting_delegate = true)
      ↔ ∃ d ∈ st.delegates, d.event_id = x ∧
          d.user_id = (if u0.is_admin then u0
            else { u0 with is_voting_delegate :=
              (activeDelegateIds st (some x)).contains u0.id }).id := by
  rw [if_neg ha]
  show (activeDelegateIds st (some x)).contains u0.id = true
    ↔ ∃ d ∈ st.delegates, d.event_id = x ∧ d.user_id = u0.id
  constructor
  · intro hc
    exact (mem_activeDelegateIds hsome u0.id hz).mp (List.elem_iff.mp hc)
  · intro hd
    exact List.elem_iff.mpr ((mem_activeDelegateIds hsome u0.id hz).mpr hd)

/-- C8: activating an event twice in a row yields exactly the same
`is_voting_delegate` assignment as activating it once, and after
activation every non-admin user's flag equals whether that user holds an
`EventDelegate` row on the now-active event. -/
theorem activate_event_idempotent_flags (s : Store) (x : Nat) (s1 s2 : Store)
    (hu0 : ∀ u ∈ s.users, u.id ≠ 0)
    (h1 : set_active_voting_event s x = .ok s1)
    (h2 : set_active_voting_event s1 x = .ok s2) :
    s2.users.map (fun u => (u.id, u.is_voting_delegate))
      = s1.users.map (fun u => (u.id, u.is_voting_delegate)) ∧
    ∀ u ∈ s1.users, u.is_admin = false →
      (u.is_voting_delegate = true ↔
        ∃ d ∈ s1.delegates, d.event_id = x ∧ d.user_id = u.id) := by
  have h2' := set_active_again h1
  rw [h2'] at h2
  injection h2 with h2
  subst h2
  refine ⟨rfl, ?_⟩
  obtain ⟨hg1, hs1⟩ := set_active_ok h1
  subst hs1
  have hX1some : (get_event { s with events := s.events.map (actMap x) } x).isSome = true := by
    show ((s.events.map (actMap x)).find? (fun e => e.id == x)).isSome = true
    rw [find?_map_actMap_isSome]
    exact hg1
  intro u hu hadm
  rw [sync_users] at hu
  rcases List.mem_map.mp hu with ⟨u0, hu0m, rfl⟩
  by_cases ha : u0.is_admin = true
  · rw [if_pos ha] at hadm
    rw [hadm] at ha
    cases ha
  · exact sync_user_flag_iff _ x u0 hX1some (hu0 u0 hu0m) ha

/-- Witness for C8: the demo user holds a delegate row on event 2 of the
demo store, and after activating event 2 twice their flag is set. -/
theorem activate_event_idempotent_flags_witness :
    demoUser1After ∈ demoStoreA_activated.users ∧ demoUser1After.is_admin = false ∧
      (demoUser1After.is_voting_delegate = true ↔
        ∃ d ∈ demoStoreA_activated.delegates,
          d.event_id = 2 ∧ d.user_id = demoUser1After.id) := by
  refine ⟨by decide, by decide, ?_⟩
  exact (activate_event_idempotent_flags demoStoreA 2 demoStoreA_activated
    demoStoreA_activated (by decide) rfl rfl).2 demoUser1After (by decide) (by decide)

theorem dedupFirstSeen_mem (seen xs : List Nat) (a : Nat) :
    a ∈ dedupFirstSeen seen xs ↔ a ∈ xs ∧ a ∉ seen := by
  induction xs generalizing seen with
  | nil => simp [dedupFirstSeen]
  | cons x rest ih =>
    simp only [dedupFirstSeen]
    by_cases hx : x ∈ seen
    · rw [if_pos hx, ih]
      constructor
      · rintro ⟨hr, hs⟩
        exact ⟨List.mem_cons_of_mem _ hr, hs⟩
      · rintro ⟨hm, hs⟩
        rcases List.mem_cons.mp hm with rfl | hr
        · exact absurd hx hs
        · exact ⟨hr, hs⟩
    · rw [if_neg hx]
      constructor
      · intro hm
        rcases List.mem_cons.mp hm with rfl | hr
        · exact ⟨List.mem_cons_self _ _, hx⟩
        · rcases (ih _).mp hr with ⟨hrest, hns⟩
          exact ⟨List.mem_cons_of_mem _ hrest,
            fun hs => hns (List.mem_cons_of_mem _ hs)⟩
      · rintro ⟨hm, hs⟩
        rcases List.mem_cons.mp hm with rfl | hr
        · exact List.mem_cons_self _ _
        · by_cases hax : a = x
          · subst hax
            exact List.mem_cons_self _ _
          · refine List.mem_cons_of_mem _ ((ih _).mpr ⟨hr, ?_⟩)
            intro hmem
            rcases List.mem_cons.mp hmem with h1 | h1
            · exact hax h1
            · exact hs h1

theorem dedupFirstSeen_nodup (seen xs : List Nat) : (dedupFirstSeen seen xs).Nodup := by
  induction xs generalizing seen with
  | nil => simp [dedupFirstSeen]
  | cons x rest ih =>
    simp only [dedupFirstSeen]
    by_cases hx : x ∈ seen
    · rw [if_pos hx]
      exact ih _
    · rw [if_neg hx]
      refine List.nodup_cons.mpr ⟨?_, ih _⟩
      intro hmem
      exact ((dedupFirstSeen_mem _ _ _).mp hmem).2 (List.mem_cons_self _ _)

theorem bi_map_user (eid oid : Nat) (lk : Nat → Option DelegateRow)
    (uids : List Nat) : ∀ next : Nat,
      ((buildInserts eid oid lk uids next).2.1).map (·.user_id)
        = uids.filter (fun uid => (lk uid).isNone) := by
  induction uids with
  | nil => intro next; rfl
  | cons uid rest ih =>
    intro next
    cases hlk : lk uid with
    | some d => simp [buildInserts, hlk, ih]
    | none => simp [buildInserts, hlk, ih]

theorem bi_ins_facts (eid oid : Nat) (lk : Nat → Option DelegateRow)
    (uids : List Nat) : ∀ (next : Nat) (r : DelegateRow),
      r ∈ (buildInserts eid oid lk uids next).2.1 →
        r.event_id = eid ∧ r.organization_id = oid ∧ next ≤ r.id := by
  induction uids with
  | nil =>
    intro next r hmem
    simp [buildInserts] at hmem
  | cons uid rest ih =>
    intro next r hmem
    cases hlk : lk uid with
    | some d =>
      simp only [buildInserts, hlk] at hmem
      exact ih next r hmem
    | none =>
      simp only [buildInserts, hlk] at hmem
      rcases List.mem_cons.mp hmem with rfl | hmem
      · exact ⟨rfl, rfl, le_refl _⟩
      · have hf := ih (next + 1) r hmem
        exact ⟨hf.1, hf.2.1, le_trans (Nat.le_succ _) hf.2.2⟩

theorem rosterReplace_delegates (s : Store) (event : EventRec)
    (organization : OrgRec) (ids : List Nat) :
    ((rosterReplace s event organization ids).1).delegates
      = s.delegates.filter (delegateKeep event.id organization.id ids)
        ++ (buildInserts event.id organization.id
            (lookupByUser (s.delegates.filter (delegateMatch event.id organization.id)))
            ids s.nextDelegateId).2.1 := by
  unfold rosterReplace
  dsimp only
  split
  · exact sync_delegates _ _
  · rfl

theorem set_event_delegates_ok {zone : Zone} {now : DT} {s : Store}
    {event_id organization_id : Nat} {user_ids : List Nat} {s' : Store}
    {upd : List DelegateRow}
    (h : set_event_delegates_for_organization zone now s event_id organization_id
      user_ids = .ok (s', upd)) :
    ∃ event organization,
      get_event s event_id = some event ∧
      get_org s organization_id = some organization ∧
      (s', upd) = rosterReplace s event organization (dedupFirstSeen [] user_ids) := by
  unfold set_event_delegates_for_organization at h
  cases hev : get_event s event_id with
  | none => rw [hev] at h; cases h
  | some event =>
    rw [hev] at h
    simp only at h
    split at h
    · cases h
    · cases hor : get_org s organization_id with
      | none => rw [hor] at h; cases h
      | some organization =>
        rw [hor] at h
        simp only at h
        split at h
        · cases h
        · split at h
          · cases h
          · injection h with h
            exact ⟨event, organization, rfl, rfl, h.symm⟩

/-- C3: after a successful `set_event_delegates_for_organization`, the
roster rows for (event, organization) carry exactly the deduplicated
user ids: still-selected rows are reused unchanged (same row identity),
deselected rows are deleted, newly selected users get fresh rows, and
rows of other organizations and events are untouched. -/
theorem set_event_delegates_roster (zone : Zone) (now : DT) (s : Store)
    (event_id organization_id : Nat) (user_ids : List Nat) (s' : Store)
    (upd : List DelegateRow)
    (hrow0 : ∀ d ∈ s.delegates, d.user_id ≠ 0)
    (hrfresh : ∀ d ∈ s.delegates, d.id < s.nextDelegateId)
    (hnd : ((s.delegates.filter (delegateMatch event_id organization_id)).map
        (·.user_id)).Nodup)
    (h : set_event_delegates_for_organization zone now s event_id organization_id
      user_ids = .ok (s', upd)) :
    (∀ uid, uid ∈ (s'.delegates.filter (delegateMatch event_id organization_id)).map
        (·.user_id) ↔ uid ∈ dedupFirstSeen [] user_ids) ∧
    ((s'.delegates.filter (delegateMatch event_id organization_id)).map
        (·.user_id)).Nodup ∧
    (∀ d ∈ s.delegates, delegateMatch event_id organization_id d = true →
      (d.user_id ∈ dedupFirstSeen [] user_ids → d ∈ s'.delegates) ∧
      (d.user_id ∉ dedupFirstSeen [] user_ids → d ∉ s'.delegates)) ∧
    (∀ d : DelegateRow, delegateMatch event_id organization_id d = false →
      (d ∈ s'.delegates ↔ d ∈ s.delegates)) := by
  obtain ⟨event, org, hev, hor, hro⟩ := set_event_delegates_ok h
  obtain ⟨hevm, heid⟩ := get_event_mem hev
  have hoid : org.id = organization_id := by
    have hp := List.find?_some hor
    simpa using hp
  subst heid
  subst hoid
  have hs'd : s'.delegates
      = s.delegates.filter (delegateKeep event.id org.id (dedupFirstSeen [] user_ids))
        ++ (buildInserts event.id org.id
            (lookupByUser (s.delegates.filter (delegateMatch event.id org.id)))
            (dedupFirstSeen [] user_ids) s.nextDelegateId).2.1 := by
    have h1 : s' = (rosterReplace s event org (dedupFirstSeen [] user_ids)).1 :=
      congrArg Prod.fst hro
    rw [h1, rosterReplace_delegates]
  have hkeep_iff : ∀ d : DelegateRow, delegateMatch event.id org.id d = true →
      (delegateKeep event.id org.id (dedupFirstSeen [] user_ids) d = true
        ↔ d.user_id ∈ dedupFirstSeen [] user_ids) := by
    intro d hm
    unfold delegateKeep
    rw [hm]
    constructor
    · intro hb
      exact List.elem_iff.mp (by simpa using hb)
    · intro hb
      simpa using List.elem_iff.mpr hb
  have hkeep_true : ∀ d : DelegateRow, delegateMatch event.id org.id d = false →
      delegateKeep event.id org.id (dedupFirstSeen [] user_ids) d = true := by
    intro d hm
    unfold delegateKeep
    rw [hm]
    rfl
  have hif : ((buildInserts event.id org.id
      (lookupByUser (s.delegates.filter (delegateMatch event.id org.id)))
      (dedupFirstSeen [] user_ids) s.nextDelegateId).2.1).filter
        (delegateMatch event.id org.id)
      = (buildInserts event.id org.id
        (lookupByUser (s.delegates.filter (delegateMatch event.id org.id)))
        (dedupFirstSeen [] user_ids) s.nextDelegateId).2.1 := by
    apply List.filter_eq_self.mpr
    intro r hr
    have hf := bi_ins_facts _ _ _ _ _ r hr
    simp [delegateMatch, hf.1, hf.2.1]
  refine ⟨?_, ?_, ?_, ?_⟩
  · -- membership: exactly the deduplicated user ids
    intro uid
    rw [hs'd, List.filter_append, List.map_append, List.mem_append]
    constructor
    · rintro (hk | hi)
      · rcases List.mem_map.mp hk with ⟨d, hdm, rfl⟩
        rcases List.mem_filter.mp hdm with ⟨hdk, hdmatch⟩
        rcases List.mem_filter.mp hdk with ⟨hds, hkeep⟩
        exact (hkeep_iff d hdmatch).mp hkeep
      · rcases List.mem_map.mp hi with ⟨r, hrm, rfl⟩
        have hr := List.mem_of_mem_filter hrm
        have hmm : r.user_id ∈ ((buildInserts event.id org.id
            (lookupByUser (s.delegates.filter (delegateMatch event.id org.id)))
            (dedupFirstSeen [] user_ids) s.nextDelegateId).2.1).map (·.user_id) :=
          List.mem_map_of_mem _ hr
        rw [bi_map_user] at hmm
        exact List.mem_of_mem_filter hmm
    · intro hD
      cases hlk : lookupByUser (s.delegates.filter (delegateMatch event.id org.id)) uid with
      | none =>
        right
        rw [hif, bi_map_user]
        refine List.mem_filter.mpr ⟨hD, ?_⟩
        rw [hlk]
        rfl
      | some d =>
        left
        unfold lookupByUser at hlk
        split at hlk
        · cases hlk
        · have hdm := List.mem_reverse.mp (List.mem_of_find?_eq_some hlk)
          have hdu : d.user_id = uid := by
            have hp := List.find?_some hlk
            simpa using hp
          rcases List.mem_filter.mp hdm with ⟨hds, hmatch⟩
          refine List.mem_map.mpr ⟨d, ?_, hdu⟩
          refine List.mem_filter.mpr ⟨?_, hmatch⟩
          refine List.mem_filter.mpr ⟨hds, ?_⟩
          exact (hkeep_iff d hmatch).mpr (hdu ▸ hD)
  · -- no duplicate users for (event, organization)
    rw [hs'd, List.filter_append, List.map_append]
    apply List.Nodup.append
    · exact hnd.sublist (((List.filter_sublist s.delegates).filter
        (delegateMatch event.id org.id)).map _)
    · rw [hif, bi_map_user]
      exact (dedupFirstSeen_nodup _ _).filter _
    · intro a hka hia
      rw [hif, bi_map_user] at hia
      rcases List.mem_filter.mp hia with ⟨-, hnone⟩
      rcases List.mem_map.mp hka with ⟨d, hdm, rfl⟩
      rcases List.mem_filter.mp hdm with ⟨hdk, hdmatch⟩
      rcases List.mem_filter.mp hdk with ⟨hds, -⟩
      have hde : d ∈ s.delegates.filter (delegateMatch event.id org.id) :=
        List.mem_filter.mpr ⟨hds, hdmatch⟩
      have h0 : d.user_id ≠ 0 := hrow0 d hds
      unfold lookupByUser at hnone
      rw [if_neg h0] at hnone
      cases hfind : (s.delegates.filter (delegateMatch event.id org.id)).reverse.find?
          (fun r => r.user_id == d.user_id) with
      | some r => rw [hfind] at hnone; cases hnone
      | none =>
        have hcon := List.find?_eq_none.mp hfind d (List.mem_reverse.mpr hde)
        simp at hcon
  · -- reuse still-selected rows, delete deselected ones
    intro d hds hmatch
    constructor
    · intro hmemD
      rw [hs'd, List.mem_append]
      left
      exact List.mem_filter.mpr ⟨hds, (hkeep_iff d hmatch).mpr hmemD⟩
    · intro hnot
      rw [hs'd, List.mem_append]
      rintro (hk | hi)
      · rcases List.mem_filter.mp hk with ⟨-, hkeep⟩
        exact hnot ((hkeep_iff d hmatch).mp hkeep)
      · have hf := bi_ins_facts _ _ _ _ _ d hi
        exact absurd hf.2.2 (not_le.mpr (hrfresh d hds))
  · -- rows of other organizations and events are untouched
    intro d hnm
    rw [hs'd, List.mem_append]
    constructor
    · rintro (hk | hi)
      · exact List.mem_of_mem_filter hk
      · have hf := bi_ins_facts _ _ _ _ _ d hi
        exfalso
        rw [delegateMatch, hf.1, hf.2.1] at hnm
        simp at hnm
    · intro hds
      left
      exact List.mem_filter.mpr ⟨hds, hkeep_true d hnm⟩

/-- Witness for C3: assigning [1, 2] then re-assigning [2] deletes user
1's row and retains user 2's row with the same surrogate id. -/
theorem set_event_delegates_roster_witness :
    ({ id := 100, event_id := 10, organization_id := 5, user_id := 1 } : DelegateRow)
        ∉ demoStoreB_reassigned.delegates ∧
      ({ id := 101, event_id := 10, organization_id := 5, user_id := 2 } : DelegateRow)
        ∈ demoStoreB_reassigned.delegates := by
  have h := set_event_delegates_roster demoZone demoNow demoStoreB_assigned 10 5 [2]
    demoStoreB_reassigned demoUpdB (by decide) (by decide) (by decide) rfl
  constructor
  · exact (h.2.2.1 _ (by decide) (by decide)).2 (by decide)
  · exact (h.2.2.1 _ (by decide) (by decide)).1 (by decide)

theorem validateDelegateUsers_err (s : Store) (org : OrgRec) (uids : List Nat) :
    (∃ uid ∈ uids, BadUser s org uid) →
    ∃ e, validateDelegateUsers s org uids = .error e := by
  induction uids with
  | nil =>
    rintro ⟨uid, hmem, -⟩
    cases hmem
  | cons uid0 rest ih =>
    rintro ⟨uid, hmem, hbad⟩
    cases hu : get_user s uid0 with
    | none => exact ⟨.userNotFound, by simp only [validateDelegateUsers, hu]⟩
    | some user =>
      cases he : ensure_user_can_delegate user with
      | error e0 => exact ⟨e0, by simp only [validateDelegateUsers, hu, he]⟩
      | ok u_ =>
        by_cases hw : user.organization_id ≠ some org.id
        · refine ⟨.userWrongOrganization, ?_⟩
          simp only [validateDelegateUsers, hu, he]
          rw [if_pos hw]
        · have huid : uid ∈ rest := by
            rcases List.mem_cons.mp hmem with rfl | hr
            · exfalso
              rcases hbad with hnone | ⟨u, hu', hbadu⟩
              · rw [hu] at hnone
                cases hnone
              · rw [hu] at hu'
                injection hu' with hu'
                subst hu'
                unfold ensure_user_can_delegate at he
                split at he
                · cases he
                · split at he
                  · cases he
                  · next hcond =>
                    push_neg at hcond
                    rcases hbadu with h1 | h2 | h3
                    · exact hw h1
                    · rw [h2] at hcond
                      cases hcond.1
                    · exact h3 hcond.2
            · exact hr
          obtain ⟨e1, he1⟩ := ih ⟨uid, huid, hbad⟩
          refine ⟨e1, ?_⟩
          simp only [validateDelegateUsers, hu, he]
          rw [if_neg hw, he1]

/-- C4: `set_event_delegates_for_organization` raises an error — before
any mutation, so the roster is left unchanged — when the lock state is
locked, when the deduplicated selection exceeds the delegate limit, or
when any candidate user is missing, outside the organization, unverified
or unapproved. -/
theorem set_event_delegates_rejects (zone : Zone) (now : DT) (s : Store)
    (event_id organization_id : Nat) (user_ids : List Nat) (event : EventRec)
    (hev : get_event s event_id = some event) :
    ((delegate_lock_state zone event now).locked = true →
      set_event_delegates_for_organization zone now s event_id organization_id user_ids
        = .error .rosterLocked) ∧
    (∀ org lim, get_org s organization_id = some org →
      (delegate_lock_state zone event now).locked = false →
      event.delegate_limit = some lim →
      lim < (dedupFirstSeen [] user_ids).length →
      set_event_delegates_for_organization zone now s event_id organization_id user_ids
        = .error .limitExceeded) ∧
    (∀ org, get_org s organization_id = some org →
      (delegate_lock_state zone event now).locked = false →
      (∃ uid ∈ dedupFirstSeen [] user_ids, BadUser s org uid) →
      ∃ e, set_event_delegates_for_organization zone now s event_id organization_id
        user_ids = .error e) := by
  refine ⟨?_, ?_, ?_⟩
  · intro hlocked
    unfold set_event_delegates_for_organization
    rw [hev]
    simp only
    rw [if_pos hlocked]
  · intro org lim hor hnl hlim hcount
    unfold set_event_delegates_for_organization
    rw [hev]
    simp only
    rw [if_neg (by rw [hnl]; exact Bool.false_ne_true), hor]
    simp only
    rw [hlim]
    simp only
    rw [if_pos (by simpa using not_le.mpr hcount)]
  · intro org hor hnl hbad
    obtain ⟨e1, he1⟩ := validateDelegateUsers_err s org _ hbad
    unfold set_event_delegates_for_organization
    rw [hev]
    simp only
    rw [if_neg (by rw [hnl]; exact Bool.false_ne_true), hor]
    simp only
    split
    · exact ⟨.limitExceeded, rfl⟩
    · refine ⟨e1, ?_⟩
      rw [he1]

/-- Witness for C4: asking for three distinct users on a limit-2 event is
rejected with the limit error. -/
theorem set_event_delegates_rejects_witness :
    set_event_delegates_for_organization demoZone demoNow demoStoreB 10 5 [1, 2, 3]
      = .error .limitExceeded := by
  have h := set_event_delegates_rejects demoZone demoNow demoStoreB 10 5 [1, 2, 3]
    demoEventB rfl
  exact h.2.1 demoOrgB 2 rfl (by decide) rfl (by decide)

theorem gac_spec (existing : List String) :
    ∀ (rands : List String) (c : String) (rest : List String),
      generateAccessCode existing rands = some (c, rest) →
        c ∉ existing ∧ (∀ r ∈ rest, r ∈ rands) ∧
          ∃ raw ∈ rands, c = formatAccessCode raw := by
  intro rands
  induction rands with
  | nil => intro c rest h; cases h
  | cons raw rrest ih =>
    intro c rest h
    simp only [generateAccessCode] at h
    split at h
    · have hf := ih c rest h
      obtain ⟨raw', hraw', hc⟩ := hf.2.2
      exact ⟨hf.1, fun r hr => List.mem_cons_of_mem _ (hf.2.1 r hr),
        raw', List.mem_cons_of_mem _ hraw', hc⟩
    · next hnot =>
      injection h with h
      injection h with h1 h2
      subst h1
      subst h2
      exact ⟨hnot, fun r hr => List.mem_cons_of_mem _ hr,
        raw, List.mem_cons_self _ _, rfl⟩

theorem gen_codes_spec (k : Nat) :
    ∀ (existing rands cs rest : List String),
      genAccessCodes existing k rands = some (cs, rest) →
        cs.length = k ∧ (∀ c ∈ cs, c ∉ existing) ∧ cs.Nodup ∧
        (∀ r ∈ rest, r ∈ rands) ∧
        ((∀ r ∈ rands, validRaw r) →
          ∀ c ∈ cs, ∃ raw, validRaw raw ∧ c = formatAccessCode raw) := by
  induction k with
  | zero =>
    intro existing rands cs rest h
    simp only [genAccessCodes] at h
    injection h with h
    injection h with h1 h2
    subst h1
    subst h2
    simp
  | succ k ih =>
    intro existing rands cs rest h
    simp only [genAccessCodes] at h
    cases hg : generateAccessCode existing rands with
    | none => rw [hg] at h; cases h
    | some cr =>
      rw [hg] at h
      obtain ⟨c, rest1⟩ := cr
      simp only at h
      cases hrec : genAccessCodes (c :: existing) k rest1 with
      | none => rw [hrec] at h; cases h
      | some p =>
        rw [hrec] at h
        obtain ⟨cs', rest2⟩ := p
        simp only at h
        injection h with h
        injection h with h1 h2
        subst h1
        subst h2
        have hgs := gac_spec existing rands c rest1 hg
        have hrs := ih (c :: existing) rest1 cs' rest2 hrec
        refine ⟨by simp [hrs.1], ?_, ?_, ?_, ?_⟩
        · intro c0 hc0
          rcases List.mem_cons.mp hc0 with rfl | hc0
          · exact hgs.1
          · intro hex
            exact (hrs.2.1 c0 hc0) (List.mem_cons_of_mem _ hex)
        · refine List.nodup_cons.mpr ⟨?_, hrs.2.2.1⟩
          intro hcmem
          exact (hrs.2.1 c hcmem) (List.mem_cons_self _ _)
        · intro r hr
          exact hgs.2.1 r (hrs.2.2.2.1 r hr)
        · intro hvalid c0 hc0
          rcases List.mem_cons.mp hc0 with rfl | hc0
          · obtain ⟨raw, hraw, hc⟩ := hgs.2.2
            exact ⟨raw, hvalid raw hraw, hc⟩
          · exact hrs.2.2.2.2 (fun r hr => hvalid r (hgs.2.1 r hr)) c0 hc0

theorem bcr_map_code (eid : Nat) (codes : List String) : ∀ next : Nat,
    (buildCodeRows eid codes next).map (·.code) = codes := by
  induction codes with
  | nil => intro next; rfl
  | cons c cs ih =>
    intro next
    simp [buildCodeRows, ih]

theorem bcr_facts (eid : Nat) (codes : List String) : ∀ (next : Nat) (r : CodeRow),
    r ∈ buildCodeRows eid codes next →
      r.event_id = eid ∧ r.used_at = none ∧ next ≤ r.id := by
  induction codes with
  | nil => intro next r h; cases h
  | cons c cs ih =>
    intro next r h
    rcases List.mem_cons.mp h with rfl | h
    · exact ⟨rfl, rfl, le_refl _⟩
    · have hf := ih (next + 1) r h
      exact ⟨hf.1, hf.2.1, le_trans (Nat.le_succ _) hf.2.2⟩

theorem generate_ok {s : Store} {event_id : Nat} {regenerate : Bool}
    {rands : List String} {s' : Store} {out : List CodeRow}
    (h : generate_voting_access_codes s event_id regenerate rands = .ok (s', out)) :
    ∃ new_codes rest,
      genAccessCodes
        (((if regenerate then
            { s with codes := s.codes.filter (fun c => ¬ c.event_id == event_id) }
          else s).codes.filter (fun c => c.event_id == event_id)).map (·.code))
        ((s.delegates.filter (fun d => d.event_id == event_id)).length
          - (((if regenerate then
              { s with codes := s.codes.filter (fun c => ¬ c.event_id == event_id) }
            else s).codes.filter (fun c => c.event_id == event_id)).map (·.code)).length)
        rands = some (new_codes, rest) ∧
      s'.codes = (if regenerate then
          { s with codes := s.codes.filter (fun c => ¬ c.event_id == event_id) }
        else s).codes
        ++ buildCodeRows event_id new_codes
          (if regenerate then
            { s with codes := s.codes.filter (fun c => ¬ c.event_id == event_id) }
          else s).nextCodeId := by
  unfold generate_voting_access_codes at h
  cases hev : get_event s event_id with
  | none => rw [hev] at h; cases h
  | some ev =>
    rw [hev] at h
    simp only at h
    split at h
    · cases h
    · split at h
      · cases h
      · next nc rest2 hgen =>
        injection h with h
        injection h with h1 h2
        exact ⟨nc, rest2, hgen, by rw [← h1]⟩

/-- C5: `generate_voting_access_codes` fails with the distinct
unavailable kind when the event has no delegate rows; with `regenerate`
it first deletes every code of the event; otherwise it tops up by
exactly `max(delegateCount - existingCodeCount, 0)` fresh rows, each an
8-symbol draw from the 23456789ABCDEFGHJKLMNPQRSTUVWXYZ alphabet
formatted `XXXX-XXXX` and distinct from every existing code of the
event. -/
theorem generate_access_codes_spec (s : Store) (event_id : Nat) (rands : List String)
    (ev : EventRec) (hev : get_event s event_id = some ev) :
    ((s.delegates.filter (fun d => d.event_id == event_id)).length = 0 →
      ∀ regenerate, generate_voting_access_codes s event_id regenerate rands
          = .error .unavailable ∧ CodeErr.unavailable ≠ CodeErr.eventNotFound) ∧
    (∀ (regenerate : Bool) (s' : Store) (out : List CodeRow),
      generate_voting_access_codes s event_id regenerate rands = .ok (s', out) →
      (∀ r ∈ rands, validRaw r) →
      ∃ newRows,
        s'.codes = (if regenerate then
            s.codes.filter (fun c => ¬ c.event_id == event_id) else s.codes) ++ newRows ∧
        newRows.length
          = (s.delegates.filter (fun d => d.event_id == event_id)).length
            - (((if regenerate then
                s.codes.filter (fun c => ¬ c.event_id == event_id)
              else s.codes).filter (fun c => c.event_id == event_id)).length) ∧
        (∀ r ∈ newRows, r.event_id = event_id ∧ r.used_at = none ∧
          s.nextCodeId ≤ r.id ∧
          (∃ raw, validRaw raw ∧ r.code = formatAccessCode raw) ∧
          r.code ∉ (((if regenerate then
              s.codes.filter (fun c => ¬ c.event_id == event_id)
            else s.codes).filter (fun c => c.event_id == event_id)).map (·.code))) ∧
        (newRows.map (·.code)).Nodup) := by
  constructor
  · intro hzero regenerate
    refine ⟨?_, by decide⟩
    unfold generate_voting_access_codes
    rw [hev]
    simp only
    rw [if_pos hzero]
  · intro regenerate s' out h hvalid
    obtain ⟨nc, rest, hgen, hcodes⟩ := generate_ok h
    have hifc : (if regenerate then
        { s with codes := s.codes.filter (fun c => ¬ c.event_id == event_id) }
      else s).codes = (if regenerate then
        s.codes.filter (fun c => ¬ c.event_id == event_id) else s.codes) := by
      cases regenerate <;> rfl
    have hifn : (if regenerate then
        { s with codes := s.codes.filter (fun c => ¬ c.event_id == event_id) }
      else s).nextCodeId = s.nextCodeId := by
      cases regenerate <;> rfl
    rw [hifc, hifn] at hcodes
    rw [hifc] at hgen
    have hspec := gen_codes_spec _ _ _ _ _ hgen
    refine ⟨buildCodeRows event_id nc s.nextCodeId, hcodes, ?_, ?_, ?_⟩
    · have hlen : (buildCodeRows event_id nc s.nextCodeId).length = nc.length := by
        have := congrArg List.length (bcr_map_code event_id nc s.nextCodeId)
        simpa using this
      rw [hlen, hspec.1, List.length_map]
    · intro r hr
      have hf := bcr_facts event_id nc s.nextCodeId r hr
      have hcmem : r.code ∈ nc := by
        have := List.mem_map_of_mem (fun x : CodeRow => x.code) hr
        rwa [bcr_map_code] at this
      refine ⟨hf.1, hf.2.1, hf.2.2, hspec.2.2.2.2 hvalid r.code hcmem, ?_⟩
      exact hspec.2.1 r.code hcmem
    · rw [bcr_map_code]
      exact hspec.2.2.1

/-- Witness for C5: requesting codes for the delegate-less demo event
fails with the unavailable kind. -/
theorem generate_access_codes_spec_witness :
    generate_voting_access_codes demoStoreB 10 true ["22222222"] = .error .unavailable := by
  have h := generate_access_codes_spec demoStoreB 10 ["22222222"] demoEventB rfl
  exact ((h.1 (by decide)) true).1

theorem redeemLookup_ok (event_id : Nat) (canonical : String) (now : Int) (user_id : Nat) :
    ∀ (codes codes' : List CodeRow) (row : CodeRow),
      redeemLookup event_id canonical now user_id codes = .ok (codes', row) →
        row.event_id = event_id ∧ row.code = canonical ∧ row.used_at = some now ∧
        row.used_by_user_id = (if user_id ≠ 0 then some user_id else none) ∧
        ∀ (now2 : Int) (user2 : Nat),
          redeemLookup event_id canonical now2 user2 codes' = .error .alreadyUsed := by
  intro codes
  induction codes with
  | nil => intro codes' row h; cases h
  | cons r rest ih =>
    intro codes' row h
    simp only [redeemLookup] at h
    split at h
    · next hmatch =>
      split at h
      · cases h
      · next hused =>
        injection h with h
        injection h with h1 h2
        subst h1
        subst h2
        have hm : r.event_id = event_id ∧ r.code = canonical := by
          simpa using hmatch
        refine ⟨hm.1, hm.2, rfl, rfl, ?_⟩
        intro now2 user2
        simp only [redeemLookup]
        rw [if_pos (show (r.event_id == event_id && r.code == canonical) = true from hmatch)]
        rfl
    · next hnmatch =>
      cases hr : redeemLookup event_id canonical now user_id rest with
      | error e => rw [hr] at h; cases h
      | ok p =>
        rw [hr] at h
        obtain ⟨rest', row0⟩ := p
        simp only at h
        injection h with h
        injection h with h1 h2
        subst h1
        subst h2
        have hf := ih rest' row0 hr
        refine ⟨hf.1, hf.2.1, hf.2.2.1, hf.2.2.2.1, ?_⟩
        intro now2 user2
        simp only [redeemLookup]
        rw [if_neg hnmatch, hf.2.2.2.2 now2 user2]

theorem redeemLookup_not_found (event_id : Nat) (canonical : String) (now : Int)
    (user_id : Nat) : ∀ codes : List CodeRow,
      (∀ r ∈ codes, ¬(r.event_id = event_id ∧ r.code = canonical)) →
      redeemLookup event_id canonical now user_id codes = .error .invalid := by
  intro codes
  induction codes with
  | nil => intro h; rfl
  | cons r rest ih =>
    intro h
    have hne : ¬ ((r.event_id == event_id && r.code == canonical) = true) := by
      intro hb
      simp only [Bool.and_eq_true, beq_iff_eq] at hb
      exact h r (List.mem_cons_self _ _) hb
    simp only [redeemLookup]
    rw [if_neg hne, ih (fun x hx => h x (List.mem_cons_of_mem _ hx))]

/-- C6: redemption canonicalizes its input (uppercase, strip
non-alphanumerics, re-hyphenate in groups of 4), rejects a wrong-length
canonical form as malformed, fails with the not-found kind when no
(event, code) row matches, and succeeds exactly once per code: the first
redemption stamps `used_at` and `used_by_user`, and every later
redemption of the same code fails with the already-used kind. -/
theorem redeem_access_code_spec (s : Store) (event_id user_id : Nat) (now : Int) :
    (∀ v : String, ((pyUpper v).data.filter Char.isAlphanum).length = ACCESS_CODE_LENGTH →
      canonicalize_access_code v
        = .ok (String.mk (((pyUpper v).data.filter Char.isAlphanum).take 4) ++ "-"
            ++ String.mk (((pyUpper v).data.filter Char.isAlphanum).drop 4))) ∧
    (∀ v : String, v ≠ "" → (pyUpper v).data.filter Char.isAlphanum ≠ [] →
      ((pyUpper v).data.filter Char.isAlphanum).length ≠ ACCESS_CODE_LENGTH →
      redeem_voting_access_code s event_id v user_id now = .error .malformed) ∧
    (∀ v c : String, v ≠ "" → canonicalize_access_code v = .ok c →
      (∀ r ∈ s.codes, ¬(r.event_id = event_id ∧ r.code = c)) →
      redeem_voting_access_code s event_id v user_id now = .error .invalid) ∧
    (∀ (v : String) (s' : Store) (row : CodeRow),
      redeem_voting_access_code s event_id v user_id now = .ok (s', row) →
      row.used_at = some now ∧
      row.used_by_user_id = (if user_id ≠ 0 then some user_id else none) ∧
      ∀ now2 : Int, redeem_voting_access_code s' event_id v user_id now2
        = .error .alreadyUsed) := by
  refine ⟨?_, ?_, ?_, ?_⟩
  · intro v hlen
    unfold canonicalize_access_code
    have hne : String.mk ((pyUpper v).data.filter Char.isAlphanum) ≠ "" := by
      intro hq
      have : (pyUpper v).data.filter Char.isAlphanum = [] := congrArg String.data hq
      rw [this] at hlen
      exact absurd hlen (by decide)
    rw [if_neg hne, if_neg (by simpa using hlen)]
  · intro v hv hne hlen
    unfold redeem_voting_access_code
    rw [if_neg hv]
    have hcan : canonicalize_access_code v = .error .malformed := by
      unfold canonicalize_access_code
      rw [if_neg (fun hq => hne (congrArg String.data hq)), if_pos (by simpa using hlen)]
    rw [hcan]
  · intro v c hv hcan hno
    unfold redeem_voting_access_code
    rw [if_neg hv, hcan]
    simp only
    rw [redeemLookup_not_found event_id c now user_id s.codes hno]
  · intro v s' row h
    unfold redeem_voting_access_code at h
    split at h
    · cases h
    · next hv =>
      cases hcan : canonicalize_access_code v with
      | error e => rw [hcan] at h; cases h
      | ok c =>
        rw [hcan] at h
        simp only at h
        cases hlook : redeemLookup event_id c now user_id s.codes with
        | error e => rw [hlook] at h; cases h
        | ok p =>
          rw [hlook] at h
          obtain ⟨codes', row0⟩ := p
          simp only at h
          injection h with h
          injection h with h1 h2
          subst h2
          have hf := redeemLookup_ok event_id c now user_id s.codes codes' row0 hlook
          refine ⟨hf.2.2.1, hf.2.2.2.1, ?_⟩
          intro now2
          unfold redeem_voting_access_code
          rw [if_neg hv, hcan]
          simp only
          have hsc : s'.codes = codes' := by rw [← h1]
          rw [hsc, hf.2.2.2.2 now2 user_id]

/-- Witness for C6: the demo code redeems once, and redeeming it again
fails with the already-used kind. -/
theorem redeem_access_code_spec_witness :
    redeem_voting_access_code demoStoreE_redeemed 10 "ab23 cd45" 1 99
      = .error .alreadyUsed := by
  have h := (redeem_access_code_spec demoStoreE 10 1 77).2.2.2 "ab23 cd45"
    demoStoreE_redeemed demoRowE rfl
  exact h.2.2 99

/-- C10: a non-empty redemption input with no alphanumeric characters
canonicalizes to the empty string, skips the malformed-length check, and
fails with the generic invalid-code (not-found) kind, which is distinct
from the malformed-format kind. -/
theorem redeem_no_alnum_invalid (s : Store) (event_id user_id : Nat) (now : Int)
    (v : String) (hv : v ≠ "")
    (hclean : (pyUpper v).data.filter Char.isAlphanum = [])
    (hnone : ∀ r ∈ s.codes, r.event_id = event_id → r.code ≠ "") :
    redeem_voting_access_code s event_id v user_id now = .error .invalid ∧
      CodeErr.invalid ≠ CodeErr.malformed := by
  refine ⟨?_, by decide⟩
  unfold redeem_voting_access_code
  rw [if_neg hv]
  have hcan : canonicalize_access_code v = .ok "" := by
    unfold canonicalize_access_code
    rw [hclean]
    rfl
  rw [hcan]
  simp only
  rw [redeemLookup_not_found event_id "" now user_id s.codes
    (fun r hr hc => hnone r hr hc.1 hc.2)]

/-- Witness for C10: redeeming the all-hyphen input on the demo store
fails with the invalid-code kind. -/
theorem redeem_no_alnum_invalid_witness :
    redeem_voting_access_code demoStoreE 10 "---" 1 77 = .error .invalid := by
  exact (redeem_no_alnum_invalid demoStoreE 10 1 77 "---" (by decide) (by decide)
    (by decide)).1

/-- C7: `_validate_voting_auth_request` rejects any stale payload
(|now - timestamp| beyond the TTL, default 60s) with the 400-class
expired failure independently of the signature machinery, and for fresh
payloads rejects with the distinct 403-class forbidden failure exactly
when the presented signature differs case-insensitively from the keyed
digest of "{timestamp}:{lowercased email}:{password}"; in particular a
tampered password under an unchanged signature fails. -/
theorem validate_auth_spec (ttl now : Int) (p : VotingAuthRequest) :
    VOTING_AUTH_TTL_SECONDS = 60 ∧
    (abs (now - p.timestamp) > max ttl 1 →
      ∀ hmacHex : String → String,
        validate_voting_auth_request hmacHex ttl now p = .error .expired) ∧
    (∀ hmacHex : String → String, abs (now - p.timestamp) ≤ max ttl 1 →
      pyLower (hmacHex (toString p.timestamp ++ ":" ++ pyLower p.email ++ ":"
          ++ p.password))
        = hmacHex (toString p.timestamp ++ ":" ++ pyLower p.email ++ ":" ++ p.password) →
      (validate_voting_auth_request hmacHex ttl now p = .error .forbidden
        ↔ pyLower (pyStrip p.signature)
            ≠ pyLower (hmacHex (toString p.timestamp ++ ":" ++ pyLower p.email ++ ":"
              ++ p.password)))) ∧
    (∀ (hmacHex : String → String) (q : String),
      validate_voting_auth_request hmacHex ttl now p = .ok () →
      hmacHex (toString p.timestamp ++ ":" ++ pyLower p.email ++ ":" ++ q)
        ≠ hmacHex (toString p.timestamp ++ ":" ++ pyLower p.email ++ ":" ++ p.password) →
      validate_voting_auth_request hmacHex ttl now { p with password := q }
        = .error .forbidden) := by
  refine ⟨rfl, ?_, ?_, ?_⟩
  · intro hstale hmacHex
    unfold validate_voting_auth_request
    rw [if_pos hstale]
  · intro hmacHex hfresh hlow
    unfold validate_voting_auth_request
    rw [if_neg (not_lt.mpr hfresh)]
    simp only
    constructor
    · intro hres
      split at hres
      · cases hres
      · next hne =>
        rw [hlow]
        intro heq
        exact hne heq.symm
    · intro hne
      rw [hlow] at hne
      rw [if_neg (fun heq => hne heq.symm)]
  · intro hmacHex q hok hdiff
    unfold validate_voting_auth_request at hok ⊢
    split at hok
    · cases hok
    · next hfresh =>
      rw [if_neg hfresh]
      simp only at hok ⊢
      split at hok
      · next heq =>
        rw [if_neg]
        intro heq'
        exact hdiff (heq'.trans heq.symm)
      · cases hok

/-- Witness for C7: the demo payload verifies, and the same payload with
a tampered password under the unchanged signature is rejected with the
forbidden kind. -/
theorem validate_auth_spec_witness :
    validate_voting_auth_request demoHmac 60 5
      { demoAuthPayload with password := "x" } = .error .forbidden := by
  have h := (validate_auth_spec 60 5 demoAuthPayload).2.2.2 demoHmac "x" rfl (by decide)
  exact h

/-- C9: launch-token minting checks its authorization preconditions in
source order, each failing distinctly: organization exists, organization
fee paid, an active event exists, the admin view requires an admin
caller, and a non-admin caller not requesting the public view must hold
a delegate row for their organization on the active event — so an unpaid
fee fails with the fee error before the delegate check is evaluated. -/
theorem launch_token_auth_order (s : Store) (user : UserRec) (organization_id : Nat)
    (view : Option String)
    (hmem : ensure_organization_membership user organization_id = .ok ()) :
    (get_org s organization_id = none →
      create_voting_o2auth_session s user organization_id view = .error .orgNotFound) ∧
    (∀ org, get_org s organization_id = some org → org.fee_paid = false →
      create_voting_o2auth_session s user organization_id view = .error .feeUnpaid) ∧
    (∀ org, get_org s organization_id = some org → org.fee_paid = true →
      get_active_voting_event s = none →
      create_voting_o2auth_session s user organization_id view
        = .error .noActiveEvent) ∧
    (∀ org ev, get_org s organization_id = some org → org.fee_paid = true →
      get_active_voting_event s = some ev → resolveView view = "admin" →
      user.is_admin = false →
      create_voting_o2auth_session s user organization_id view
        = .error .adminViewForbidden) ∧
    (∀ org ev, get_org s organization_id = some org → org.fee_paid = true →
      get_active_voting_event s = some ev → user.is_admin = false →
      resolveView view ≠ "admin" → resolveView view ≠ "public" →
      (∀ d ∈ s.delegates, ¬(d.event_id = ev.id ∧ d.organization_id = org.id ∧
        d.user_id = user.id)) →
      create_voting_o2auth_session s user organization_id view
        = .error .notDelegate) := by
  refine ⟨?_, ?_, ?_, ?_, ?_⟩
  · intro hno
    unfold create_voting_o2auth_session
    rw [hmem, hno]
  · intro org horg hfee
    unfold create_voting_o2auth_session
    rw [hmem, horg]
    simp only
    rw [if_pos (by rw [hfee]; exact Bool.false_ne_true)]
  · intro org horg hfee hact
    unfold create_voting_o2auth_session
    rw [hmem, horg]
    simp only
    rw [if_neg (by rw [hfee]; exact fun hq => hq rfl), hact]
  · intro org ev horg hfee hact hview hadmin
    unfold create_voting_o2auth_session
    rw [hmem, horg]
    simp only
    rw [if_neg (by rw [hfee]; exact fun hq => hq rfl), hact]
    simp only
    rw [if_pos ⟨hview, by rw [hadmin]; exact Bool.false_ne_true⟩]
  · intro org ev horg hfee hact hadmin hnadm hnpub hnod
    unfold create_voting_o2auth_session
    rw [hmem, horg]
    simp only
    rw [if_neg (by rw [hfee]; exact fun hq => hq rfl), hact]
    simp only
    rw [if_neg (fun hc => hnadm hc.1)]
    rw [if_pos ?_]
    refine ⟨by rw [hadmin]; exact Bool.false_ne_true, hnpub, ?_⟩
    intro hany
    rcases List.any_eq_true.mp hany with ⟨d, hd, hdp⟩
    simp only [Bool.and_eq_true, beq_iff_eq] at hdp
    exact hnod d hd ⟨hdp.1.1, hdp.1.2, hdp.2⟩

/-- Witness for C9: a member of an organization with an unpaid fee is
rejected with the fee error (before any delegate check). -/
theorem launch_token_auth_order_witness :
    create_voting_o2auth_session demoStoreF demoUserF 5 none = .error .feeUnpaid := by
  have h := launch_token_auth_order demoStoreF demoUserF 5 none rfl
  exact h.2.1 { id := 5, fee_paid := false } rfl rfl

/-- C2: `delegate_lock_state` is a pure function of the event and the
current time whose locked flag and reason match the spec's six-row table
(override locked → manual_locked; override unlocked → manual_unlocked or
manual_unlocked_after_deadline; no override → no_deadline,
deadline_passed or deadline_pending), where a naive stored deadline is
interpreted in the configured local zone against now converted to that
zone and an aware deadline is compared in UTC. -/
theorem delegate_lock_state_matches_spec (zone : Zone) (event : EventRec) (now : DT) :
    ((delegate_lock_state zone event now).locked,
     (delegate_lock_state zone event now).reason) = lockStateSpec zone event now := by
  unfold delegate_lock_state lockStateSpec deadlinePassedSpec
  by_cases h1 : parseOverride event.delegate_lock_override = some "locked"
  · simp [h1]
  · by_cases h2 : parseOverride event.delegate_lock_override = some "unlocked"
    · cases hd : event.delegate_deadline with
      | none => simp [h1, h2, hd]
      | some d =>
        cases htz : d.tz with
        | none =>
          by_cases hlt : d.wall - zone d.wall < now.instant <;>
            simp [h1, h2, hd, htz, hlt]
        | some off =>
          by_cases hlt : d.wall - off < now.instant <;>
            simp [h1, h2, hd, htz, hlt]
    · cases hd : event.delegate_deadline with
      | none => simp [h1, h2, hd]
      | some d =>
        cases htz : d.tz with
        | none =>
          by_cases hlt : d.wall - zone d.wall < now.instant <;>
            simp [h1, h2, hd, htz, hlt]
        | some off =>
          by_cases hlt : d.wall - off < now.instant <;>
            simp [h1, h2, hd, htz, hlt]

end Mikdash
